import Mathlib

/-!
Verification development for the TradingView historical-data client
(`main.py`: class TvDatafeed) and its batch coordinator (`data.py`:
class DataFetchThread).  Python strings are modelled as `List Char`,
Python floats as `ℚ` with the outcome of `float(...)` conversion kept
abstract (an oracle `List Char → Option ℚ`), and Python exceptions as
`Except` values with every `try/except` translated explicitly.
-/

namespace Tv

/-- Decimal digit character, mirroring Python's `str` on a digit value. -/
def digitChar (d : Nat) : Char := Char.ofNat (48 + d)

/-- Fuel-driven core of the decimal printer; the fuel only makes the
recursion structural (so that it evaluates inside the kernel), and
`natChars` always supplies enough of it. -/
def natCharsAux : Nat → Nat → List Char
  | 0, _ => []
  | Nat.succ fuel, n =>
    if n < 10 then [digitChar n]
    else natCharsAux fuel (n / 10) ++ [digitChar (n % 10)]

/-- Decimal representation of a natural number, mirroring Python's `str(n)`. -/
def natChars (n : Nat) : List Char := natCharsAux (n + 1) n

theorem natCharsAux_fuel : ∀ (f1 f2 n : Nat), n < f1 → n < f2 →
    natCharsAux f1 n = natCharsAux f2 n := by
  intro f1
  induction f1 with
  | zero => intro f2 n h1 h2; omega
  | succ g ih =>
    intro f2 n h1 h2
    cases f2 with
    | zero => omega
    | succ h =>
      by_cases hn : n < 10
      · simp [natCharsAux, hn]
      · have hd : n / 10 < n := Nat.div_lt_self (by omega) (by omega)
        simp only [natCharsAux, if_neg hn]
        rw [ih h (n / 10) (by omega) (by omega)]

theorem natChars_unfold (n : Nat) :
    natChars n = if n < 10 then [digitChar n]
      else natChars (n / 10) ++ [digitChar (n % 10)] := by
  by_cases hn : n < 10
  · simp [natChars, natCharsAux, hn]
  · have hd : n / 10 < n := Nat.div_lt_self (by omega) (by omega)
    simp only [natChars]
    rw [if_neg hn]
    conv_lhs => rw [natCharsAux]
    rw [if_neg hn]
    rw [natCharsAux_fuel n (n / 10 + 1) (n / 10) (by omega) (by omega)]

/-- Decimal representation of an integer, mirroring Python's `str(n)`. -/
def intChars (n : Int) : List Char :=
  if n < 0 then Char.ofNat 45 :: natChars n.natAbs else natChars n.natAbs

/-- Value of a list of decimal digit characters (used to decode a frame's
length prefix). -/
def digitsVal (ds : List Char) : Nat :=
  ds.foldl (fun a c => a * 10 + (c.toNat - 48)) 0

/-- Lowercase hexadecimal digit, as produced by Python's json `\uXXXX` escapes. -/
def hexDigit (n : Nat) : Char :=
  if n < 10 then Char.ofNat (48 + n) else Char.ofNat (87 + n)

/-- A `\uXXXX` escape sequence for a code unit below 0x10000. -/
def escU (n : Nat) : List Char :=
  [Char.ofNat 92, Char.ofNat 117,
   hexDigit (n / 4096 % 16), hexDigit (n / 256 % 16),
   hexDigit (n / 16 % 16), hexDigit (n % 16)]

/-- Escaping of one character inside a JSON string, mirroring CPython's
`json.dumps` with its default `ensure_ascii=True`: backslash, quote and the
named control escapes are special-cased, printable ASCII is kept, and
everything else becomes `\uXXXX` (a surrogate pair above 0xFFFF). -/
def escapeChar (c : Char) : List Char :=
  if c = Char.ofNat 92 then [Char.ofNat 92, Char.ofNat 92]
  else if c = Char.ofNat 34 then [Char.ofNat 92, Char.ofNat 34]
  else if c = Char.ofNat 8 then [Char.ofNat 92, Char.ofNat 98]
  else if c = Char.ofNat 12 then [Char.ofNat 92, Char.ofNat 102]
  else if c = Char.ofNat 10 then [Char.ofNat 92, Char.ofNat 110]
  else if c = Char.ofNat 13 then [Char.ofNat 92, Char.ofNat 114]
  else if c = Char.ofNat 9 then [Char.ofNat 92, Char.ofNat 116]
  else if 32 ≤ c.toNat ∧ c.toNat ≤ 126 then [c]
  else if c.toNat < 65536 then escU c.toNat
  else escU (55296 + (c.toNat - 65536) / 1024) ++ escU (56320 + (c.toNat - 65536) % 1024)

mutual

/-- A JSON value, as passed to `json.dumps` by `TvDatafeed.__construct_message`
(main.py:139): strings, integers, arrays and objects cover every parameter
shape the client sends. -/
inductive JVal where
  | jstr : List Char → JVal
  | jnum : Int → JVal
  | jarr : JArr → JVal
  | jobj : JObj → JVal

/-- A JSON array (list of parameters). -/
inductive JArr where
  | nil : JArr
  | cons : JVal → JArr → JArr

/-- A JSON object (ordered key/value pairs, as Python dicts preserve order). -/
inductive JObj where
  | nil : JObj
  | cons : List Char → JVal → JObj → JObj

end

/-- Serialization of a JSON string with quotes and escaping. -/
def serStr (s : List Char) : List Char :=
  Char.ofNat 34 :: (s.map escapeChar).flatten ++ [Char.ofNat 34]

mutual

/-- Compact JSON serialization of a value, mirroring
`json.dumps(v, separators=(",", ":"))`: no inserted whitespace. -/
def serJ : JVal → List Char
  | .jstr s => serStr s
  | .jnum n => intChars n
  | .jarr a => Char.ofNat 91 :: serArr a ++ [Char.ofNat 93]
  | .jobj o => Char.ofNat 123 :: serObj o ++ [Char.ofNat 125]

/-- Comma-separated serialization of array elements. -/
def serArr : JArr → List Char
  | .nil => []
  | .cons v a =>
      serJ v ++ (match a with | .nil => [] | .cons _ _ => [Char.ofNat 44]) ++ serArr a

/-- Comma-separated serialization of object entries, each `"key":value`. -/
def serObj : JObj → List Char
  | .nil => []
  | .cons k v o =>
      serStr k ++ Char.ofNat 58 :: serJ v ++
        (match o with | .nil => [] | .cons _ _ _ => [Char.ofNat 44]) ++ serObj o

end

/-- Build a JSON array from a Lean list of values. -/
def JArr.ofList (l : List JVal) : JArr :=
  l.foldr JArr.cons JArr.nil

/-- The message body `json.dumps({"m": func, "p": param_list}, separators=(",", ":"))`
of `TvDatafeed.__construct_message` (main.py:138-140). -/
def construct_message (func : List Char) (params : JArr) : List Char :=
  serJ (.jobj (.cons ("m").data (.jstr func) (.cons ("p").data (.jarr params) .nil)))

/-- The frame header/separator `"~m~"`. -/
def mmHdr : List Char := ("~m~").data

/-- Length prefixing of `TvDatafeed.__prepend_header` (main.py:134-136):
`"~m~" + str(len(st)) + "~m~" + st` (Python `len` counts characters). -/
def prepend_header (st : List Char) : List Char :=
  mmHdr ++ natChars st.length ++ mmHdr ++ st

/-- `TvDatafeed.__create_message` (main.py:142-143). -/
def create_message (func : List Char) (params : JArr) : List Char :=
  prepend_header (construct_message func params)

/-- UTF-8 byte size of one character (the encoding Python uses on the wire). -/
def utf8Sz (c : Char) : Nat :=
  if c.toNat < 128 then 1 else if c.toNat < 2048 then 2
  else if c.toNat < 65536 then 3 else 4

/-- UTF-8 byte length of a string modelled as a character list. -/
def utf8Len (s : List Char) : Nat := (s.map utf8Sz).sum

/-- Drop an expected prefix, returning the remainder if it matches. -/
def dropPre : List Char → List Char → Option (List Char)
  | [], s => some s
  | _ :: _, [] => none
  | p :: ps, c :: cs => if p = c then dropPre ps cs else none

/-- Decimal digit test. -/
def isDigitC (c : Char) : Bool := 48 ≤ c.toNat && c.toNat ≤ 57

/-- Decoder for a length-prefixed frame `~m~<decimal length>~m~<payload>`:
returns the decoded length and the payload following the prefix. -/
def decode_frame (s : List Char) : Option (Nat × List Char) :=
  match dropPre mmHdr s with
  | none => none
  | some r =>
    let ds := r.takeWhile isDigitC
    if ds.isEmpty then none
    else
      match dropPre mmHdr (r.dropWhile isDigitC) with
      | none => none
      | some payload => some (digitsVal ds, payload)

/-- Class-level retry bound `TvDatafeed.__max_retries = 3` (main.py:39). -/
def max_retries : Nat := 3

/-- Read-loop bound `max_messages = 100` (main.py:273). -/
def max_messages : Nat := 100

/-- Chart interval enumeration (main.py:18-31). -/
inductive Interval where
  | in_1_minute | in_3_minute | in_5_minute | in_15_minute | in_30_minute
  | in_45_minute | in_1_hour | in_2_hour | in_3_hour | in_4_hour
  | in_daily | in_weekly | in_monthly
deriving DecidableEq

/-- Wire value of each interval (main.py:18-31). -/
def Interval.value : Interval → List Char
  | .in_1_minute => ("1").data
  | .in_3_minute => ("3").data
  | .in_5_minute => ("5").data
  | .in_15_minute => ("15").data
  | .in_30_minute => ("30").data
  | .in_45_minute => ("45").data
  | .in_1_hour => ("1H").data
  | .in_2_hour => ("2H").data
  | .in_3_hour => ("3H").data
  | .in_4_hour => ("4H").data
  | .in_daily => ("1D").data
  | .in_weekly => ("1W").data
  | .in_monthly => ("1M").data

/-- `TvDatafeed.__format_symbol` (main.py:194-205).  The `exchange` argument is
accepted and ignored exactly as in the source; the final
`raise ValueError("Not a valid contract")` branch guards contract values that
are neither `None` nor `int` and is unrepresentable under `Option Int`. -/
def format_symbol (symbol : List Char) (exchange : Option (List Char))
    (contract : Option Int) : List Char :=
  if Char.ofNat 58 ∈ symbol then symbol
  else
    match contract with
    | none => symbol
    | some c => symbol ++ intChars c ++ [Char.ofNat 33]

/-- Modelled from the spec: the symbol-formatting rule of §4.4 step 3 /
claim C8 — "if the symbol already contains an exchange-prefix separator,
pass through unchanged; otherwise if a futures-contract index is given,
append `<index>!`; otherwise pass through unchanged", with no exchange
argument at all ("the exchange argument ... is never itself prefixed"). -/
def spec_format_symbol (symbol : List Char) (contract : Option Int) : List Char :=
  if Char.ofNat 58 ∈ symbol then symbol
  else
    match contract with
    | some c => symbol ++ intChars c ++ [Char.ofNat 33]
    | none => symbol

/-- A parsed bar row `[timestamp, open, high, low, close, volume]`. -/
abbrev Row := List ℚ

/-- A pandas DataFrame as produced by `__create_df`: the constant symbol
column (main.py:186) and the OHLCV rows. `pd.DataFrame()` is `⟨none, []⟩`. -/
structure DF where
  symCol : Option (List Char)
  rows : List Row
deriving DecidableEq

/-- The empty DataFrame `pd.DataFrame()`. -/
def emptyDF : DF := ⟨none, []⟩

/-- Lazy capture of `re.search('"s":\[(.+?)\}\]', ...)` once the literal
`"s":[` has matched: consume the shortest non-empty run of non-newline
characters followed by `}]` (regex `.` does not match newlines). -/
def capAux (acc : List Char) : List Char → Option (List Char)
  | [] => none
  | c :: cs =>
      if c = Char.ofNat 10 then none
      else if ("\x7d]").data.isPrefixOf cs then some (acc ++ [c])
      else capAux (acc ++ [c]) cs

/-- The `re.search('"s":\[(.+?)\}\]', raw_data).group(1)` extraction of
`__create_df` (main.py:159): leftmost match wins, later occurrences of
`"s":[` are tried when an earlier one has no closing `}]` on its line. -/
def extract : List Char → Option (List Char)
  | [] => none
  | c :: cs =>
      if ("\"s\":[").data.isPrefixOf (c :: cs) then
        match capAux [] (List.drop 5 (c :: cs)) with
        | some cap => some cap
        | none => extract cs
      else extract cs

/-- `out.split(',{"')` (main.py:160): non-overlapping left-to-right split on
the three-character separator. -/
def splitChunks (acc : List Char) : List Char → List (List Char)
  | [] => [acc]
  | c :: cs =>
      if c = Char.ofNat 44 ∧ ("\x7b\"").data.isPrefixOf cs then
        acc :: splitChunks [] (cs.drop 2)
      else splitChunks (acc ++ [c]) cs
termination_by l => l.length
decreasing_by
  all_goals simp
  omega

/-- Separator predicate of `re.split("\[|:|,|\]", xi)` (main.py:165). -/
def sepChar (c : Char) : Bool :=
  c == Char.ofNat 91 || c == Char.ofNat 58 || c == Char.ofNat 44 || c == Char.ofNat 93

/-- `re.split("\[|:|,|\]", xi)` (main.py:165): split a record chunk into
positional field tokens. -/
def tokenize (xs : List Char) : List (List Char) := xs.splitOnP sepChar

/-- Outcome of `float(xi[i])` at position `i` of a tokenized record, given the
abstract float-conversion oracle `pf`: `none` when the index is out of range
(IndexError) or the conversion fails (ValueError). -/
def fieldAt (pf : List Char → Option ℚ) (rec : List (List Char)) (i : Nat) : Option ℚ :=
  (rec.get? i).bind pf

/-- The `for i in range(5, 10)` field loop of `__create_df` (main.py:168-180),
straight-lined: positions 5-8 substitute 0.0 on a failed parse without
touching the flag; position 9 (volume) is skipped with 0.0 once
`volume_data` is False, and a parse failure there clears the flag. -/
def processFields (pf : List Char → Option ℚ) (rec : List (List Char))
    (vd : Bool) : List ℚ × Bool :=
  let fd := fun i => (fieldAt pf rec i).getD 0
  match vd, fieldAt pf rec 9 with
  | true, some v => ([fd 5, fd 6, fd 7, fd 8, v], true)
  | true, none => ([fd 5, fd 6, fd 7, fd 8, 0], false)
  | false, _ => ([fd 5, fd 6, fd 7, fd 8, 0], false)

/-- Python exception kinds that `__create_df` distinguishes: `IndexError` is
caught by its `except (AttributeError, IndexError)` clause, `ValueError`
from `float(xi[4])` (main.py:166) is not. -/
inductive PyKind where
  | indexErr | valueErr

/-- Processing of one tokenized record (main.py:166-181): `xi[4]` raises
IndexError when missing, `float(xi[4])` raises ValueError when unparsable
(`datetime.fromtimestamp` is modelled as the identity on the parsed value),
then the field loop runs with the sticky volume flag. -/
def processRecord (pf : List Char → Option ℚ) (vd : Bool)
    (rec : List (List Char)) : Except PyKind (Row × Bool) :=
  match rec.get? 4 with
  | none => .error .indexErr
  | some t =>
    match pf t with
    | none => .error .valueErr
    | some ts =>
      let (fs, vd') := processFields pf rec vd
      .ok (ts :: fs, vd')

/-- The `for xi in x` record loop of `__create_df` (main.py:164-181), with
`volume_data` threaded through the records of one series. -/
def create_df_rows (pf : List Char → Option ℚ) (vd : Bool) :
    List (List (List Char)) → Except PyKind (List Row)
  | [] => .ok []
  | r :: rs =>
    match processRecord pf vd r with
    | .error e => .error e
    | .ok (row, vd') =>
      match create_df_rows pf vd' rs with
      | .error e => .error e
      | .ok rows => .ok (row :: rows)

/-- `TvDatafeed.__create_df` (main.py:155-192): regex extraction, record
split, tokenization and the field loop.  A failed extraction is an
AttributeError and an out-of-range `xi[4]` an IndexError, both caught at
main.py:189 yielding `pd.DataFrame()`; a ValueError escapes to the caller. -/
def create_df (pf : List Char → Option ℚ) (raw sym : List Char) : Except Unit DF :=
  match extract raw with
  | none => .ok emptyDF
  | some out =>
    match create_df_rows pf true ((splitChunks [] out).map tokenize) with
    | .error .indexErr => .ok emptyDF
    | .error .valueErr => .error ()
    | .ok rows => .ok ⟨some sym, rows⟩

/-- The environment a fetch runs against: outcome streams for the transport
operations (indexed by per-operation call counters), the random letters
drawn by the session-id generators, and the abstract `float(...)` oracle. -/
structure Env where
  connOk : Nat → Bool
  sendOk : Nat → Bool
  recv : Nat → Option (List Char)
  randWord : Nat → List Char
  pyFloat : List Char → Option ℚ

/-- Operation counters threaded through a run: connection-open attempts,
sends, receives, random draws, and whether `self.ws` has ever been set
(it governs the `hasattr(self, 'ws')` close guard, main.py:306). -/
structure WSState where
  opens : Nat
  sends : Nat
  recvs : Nat
  rand : Nat
  wsSet : Bool
deriving DecidableEq

/-- Initial state of a fresh client. -/
def WSState.init : WSState := ⟨0, 0, 0, 0, false⟩

/-- Observable transport events of a run. -/
inductive Event where
  | openEvt : Bool → Event
  | sendEvt : List Char → List Char → Bool → Event
  | recvEvt : Bool → Event
  | closeEvt : Event
deriving DecidableEq

/-- `TvDatafeed.__generate_session` (main.py:120-125): `"qs_"` plus the next
word of random lowercase letters (the 12 draws are modelled as one stream
element). -/
def generate_session (env : Env) (s : WSState) : WSState × List Char :=
  (⟨s.opens, s.sends, s.recvs, s.rand + 1, s.wsSet⟩, ("qs_").data ++ env.randWord s.rand)

/-- `TvDatafeed.__generate_chart_session` (main.py:127-132): `"cs_"` prefix. -/
def generate_chart_session (env : Env) (s : WSState) : WSState × List Char :=
  (⟨s.opens, s.sends, s.recvs, s.rand + 1, s.wsSet⟩, ("cs_").data ++ env.randWord s.rand)

/-- The `for attempt in range(self.__max_retries)` loop of
`TvDatafeed.__create_connection` (main.py:92-108): each iteration performs
one websocket `create_connection` call; after all fail it raises. -/
def create_connection_loop (env : Env) : Nat → WSState → WSState × List Event × Except Unit Unit
  | 0, s => (s, [], .error ())
  | Nat.succ k, s =>
    let ok := env.connOk s.opens
    let s' : WSState := ⟨s.opens + 1, s.sends, s.recvs, s.rand, s.wsSet || ok⟩
    if ok then (s', [.openEvt true], .ok ())
    else
      let (s'', tr, r) := create_connection_loop env k s'
      (s'', .openEvt false :: tr, r)

/-- `TvDatafeed.__create_connection` (main.py:92-108). -/
def create_connection (env : Env) (s : WSState) : WSState × List Event × Except Unit Unit :=
  create_connection_loop env max_retries s

/-- `TvDatafeed.__send_message` (main.py:145-153): frame the message and send
it; a transport failure is re-raised to the caller. -/
def send_message (env : Env) (func : List Char) (args : JArr) (s : WSState) :
    WSState × List Event × Except Unit Unit :=
  let m := create_message func args
  let ok := env.sendOk s.sends
  let s' : WSState := ⟨s.opens, s.sends + 1, s.recvs, s.rand, s.wsSet⟩
  (s', [.sendEvt func m ok], if ok then .ok () else .error ())

/-- Sequential sends of the handshake messages (main.py:245-269); the first
failure propagates and the remaining messages are not sent. -/
def send_all (env : Env) : List (List Char × JArr) → WSState → WSState × List Event × Except Unit Unit
  | [], s => (s, [], .ok ())
  | (f, a) :: rest, s =>
    match send_message env f a s with
    | (s', tr, .error e) => (s', tr, .error e)
    | (s', tr, .ok _) =>
      let (s'', tr2, r) := send_all env rest s'
      (s'', tr ++ tr2, r)

/-- The fixed field list of the `quote_set_fields` message (main.py:248-257). -/
def quoteFields : List (List Char) :=
  [("ch").data, ("chp").data, ("current_session").data, ("description").data,
   ("local_description").data, ("language").data, ("exchange").data,
   ("fractional").data, ("is_tradable").data, ("lp").data, ("lp_time").data,
   ("minmov").data, ("minmove2").data, ("original_name").data,
   ("pricescale").data, ("pro_name").data, ("short_name").data, ("type").data,
   ("update_mode").data, ("volume").data, ("currency_code").data,
   ("rchp").data, ("rtc").data]

/-- The `resolve_symbol` string payload
`={"symbol":"<sym>","adjustment":"splits","session":"regular"|"extended"}`
built by the f-string at main.py:265. -/
def resolvePayload (formatted : List Char) (extended : Bool) : List Char :=
  [Char.ofNat 61, Char.ofNat 123] ++ ("\"symbol\":\"").data ++ formatted ++
    ("\",\"adjustment\":\"splits\",\"session\":\"").data ++
    (if extended then ("extended").data else ("regular").data) ++
    [Char.ofNat 34, Char.ofNat 125]

/-- The nine handshake messages of one `get_hist` attempt in source order
(main.py:245-269). -/
def msgsFor (token session chart formatted ivalue : List Char) (n_bars : Int)
    (extended : Bool) : List (List Char × JArr) :=
  [(("set_auth_token").data, .ofList [.jstr token]),
   (("chart_create_session").data, .ofList [.jstr chart, .jstr []]),
   (("quote_create_session").data, .ofList [.jstr session]),
   (("quote_set_fields").data, .ofList (.jstr session :: quoteFields.map JVal.jstr)),
   (("quote_add_symbols").data,
     .ofList [.jstr session, .jstr formatted,
       .jobj (.cons ("flags").data (.jarr (.ofList [.jstr ("force_permission").data])) .nil)]),
   (("quote_fast_symbols").data, .ofList [.jstr session, .jstr formatted]),
   (("resolve_symbol").data,
     .ofList [.jstr chart, .jstr ("symbol_1").data, .jstr (resolvePayload formatted extended)]),
   (("create_series").data,
     .ofList [.jstr chart, .jstr ("s1").data, .jstr ("s1").data,
       .jstr ("symbol_1").data, .jstr ivalue, .jnum n_bars]),
   (("switch_timezone").data, .ofList [.jstr chart, .jstr ("exchange").data])]

/-- The success terminal marker (main.py:285). -/
def completedMarker : List Char := ("series_completed").data

/-- The failure terminal marker (main.py:293). -/
def errorMarker : List Char := ("series_error").data

/-- How the `while message_count < max_messages` read loop ended. -/
inductive ReadStop where
  | success : DF → ReadStop
  | brokeEmpty : ReadStop
  | brokeErr : ReadStop
  | brokeRecv : ReadStop
  | brokeParse : ReadStop
  | capReached : ReadStop

/-- The streaming read loop of `get_hist` (main.py:271-301): receive and
append to the buffer until the current message contains a terminal marker,
the receive raises, or the message bound is reached.  A ValueError escaping
`__create_df` is caught by the loop's own `except` (main.py:296) and breaks.
The fuel argument is `max_messages - message_count`. -/
def read_loop (env : Env) (formatted : List Char) :
    Nat → List Char → WSState → WSState × List Event × ReadStop
  | 0, _, s => (s, [], .capReached)
  | Nat.succ fuel, raw, s =>
    match env.recv s.recvs with
    | none => (⟨s.opens, s.sends, s.recvs + 1, s.rand, s.wsSet⟩, [.recvEvt false], .brokeRecv)
    | some result =>
      let s' : WSState := ⟨s.opens, s.sends, s.recvs + 1, s.rand, s.wsSet⟩
      let raw' := raw ++ result ++ [Char.ofNat 10]
      if completedMarker <:+: result then
        match create_df env.pyFloat raw' formatted with
        | .error _ => (s', [.recvEvt true], .brokeParse)
        | .ok df =>
          if df.rows.isEmpty then (s', [.recvEvt true], .brokeEmpty)
          else (s', [.recvEvt true], .success df)
      else if errorMarker <:+: result then (s', [.recvEvt true], .brokeErr)
      else
        let (s'', tr, r) := read_loop env formatted fuel raw' s'
        (s'', .recvEvt true :: tr, r)

/-- The body of one `try:` block of the attempt loop (main.py:240-301):
connect, send the nine handshake messages, then read.  Its `Except` value
is the exception that the surrounding `except Exception` (main.py:303)
will observe. -/
def attempt_try (env : Env) (token formatted ivalue : List Char) (n_bars : Int)
    (extended : Bool) (session chart : List Char) (s : WSState) :
    WSState × List Event × Except Unit (Option DF) :=
  match create_connection env s with
  | (s1, t1, .error e) => (s1, t1, .error e)
  | (s1, t1, .ok _) =>
    match send_all env (msgsFor token session chart formatted ivalue n_bars extended) s1 with
    | (s2, t2, .error e) => (s2, t1 ++ t2, .error e)
    | (s2, t2, .ok _) =>
      let (s3, t3, stop) := read_loop env formatted max_messages [] s2
      (s3, t1 ++ t2 ++ t3,
        .ok (match stop with | .success df => some df | _ => none))

/-- The `for attempt in range(self.__max_retries)` loop of `get_hist`
(main.py:239-314): each attempt's exception is swallowed by the
`except Exception` clause, the `finally` closes `self.ws` when set, and a
successful DataFrame returns immediately. -/
def attempts_loop (env : Env) (token formatted ivalue : List Char) (n_bars : Int)
    (extended : Bool) (session chart : List Char) :
    Nat → WSState → WSState × List Event × Except Unit (Option DF)
  | 0, s => (s, [], .ok none)
  | Nat.succ k, s =>
    let (s1, t1, r) := attempt_try env token formatted ivalue n_bars extended session chart s
    let ct : List Event := if s1.wsSet then [.closeEvt] else []
    match r with
    | .ok (some df) => (s1, t1 ++ ct, .ok (some df))
    | .ok none =>
      let (s2, t2, r2) := attempts_loop env token formatted ivalue n_bars extended session chart k s1
      (s2, t1 ++ ct ++ t2, r2)
    | .error _ =>
      let (s2, t2, r2) := attempts_loop env token formatted ivalue n_bars extended session chart k s1
      (s2, t1 ++ ct ++ t2, r2)

/-- `TvDatafeed.get_hist` (main.py:207-317).  The symbol is formatted with
`exchange=None` (main.py:233); the two session ids are generated once,
before the attempt loop (main.py:236-237); after the loop an empty
DataFrame is returned.  The `Except` component is the exception `get_hist`
would let escape to its caller. -/
def get_hist (env : Env) (token symbol exchange : List Char) (interval : Interval)
    (n_bars : Int) (fut_contract : Option Int) (extended_session : Bool)
    (s0 : WSState) : WSState × List Event × Except Unit DF :=
  let formatted := format_symbol symbol none fut_contract
  let ivalue := interval.value
  let (s1, session) := generate_session env s0
  let (s2, chart) := generate_chart_session env s1
  match attempts_loop env token formatted ivalue n_bars extended_session session chart max_retries s2 with
  | (s', tr, .error e) => (s', tr, .error e)
  | (s', tr, .ok none) => (s', tr, .ok emptyDF)
  | (s', tr, .ok (some df)) => (s', tr, .ok df)

/-- Python-dict insertion: overwrite in place or append a new key. -/
def dictInsert (m : List (List Char × DF)) (k : List Char) (v : DF) :
    List (List Char × DF) :=
  match m with
  | [] => [(k, v)]
  | (k', v') :: t => if k' = k then (k, v) :: t else (k', v') :: dictInsert t k v

/-- Python-dict lookup. -/
def lookupD (m : List (List Char × DF)) (k : List Char) : Option DF :=
  match m with
  | [] => none
  | (k', v') :: t => if k' = k then some v' else lookupD t k

/-- The `for symbol in symbols` loop of `get_multiple_hist` (main.py:330-343):
`results[symbol] = df` for each symbol in turn (the inter-symbol
`time.sleep(2)` has no observable effect here); an exception from
`get_hist` would propagate. -/
def get_multiple_hist_go (env : Env) (token exchange : List Char) (interval : Interval)
    (n_bars : Int) (fut_contract : Option Int) (extended_session : Bool) :
    List (List Char) → WSState → List (List Char × DF) →
      WSState × List Event × Except Unit (List (List Char × DF))
  | [], s, acc => (s, [], .ok acc)
  | sym :: rest, s, acc =>
    match get_hist env token sym exchange interval n_bars fut_contract extended_session s with
    | (s', tr, .error e) => (s', tr, .error e)
    | (s', tr, .ok df) =>
      let (s'', tr2, r) :=
        get_multiple_hist_go env token exchange interval n_bars fut_contract
          extended_session rest s' (dictInsert acc sym df)
      (s'', tr ++ tr2, r)

/-- `TvDatafeed.get_multiple_hist` (main.py:319-344). -/
def get_multiple_hist (env : Env) (token : List Char) (symbols : List (List Char))
    (exchange : List Char) (interval : Interval) (n_bars : Int)
    (fut_contract : Option Int) (extended_session : Bool) (s0 : WSState) :
    WSState × List Event × Except Unit (List (List Char × DF)) :=
  get_multiple_hist_go env token exchange interval n_bars fut_contract
    extended_session symbols s0 []

/-- Python `s.replace(pat, rep)` (non-overlapping, left to right); an empty
pattern is never used by the modelled code. -/
def replaceSeq (pat rep : List Char) : List Char → List Char
  | [] => []
  | c :: cs =>
    if h : pat ≠ [] ∧ pat.isPrefixOf (c :: cs) then
      rep ++ replaceSeq pat rep (List.drop pat.length (c :: cs))
    else c :: replaceSeq pat rep cs
termination_by l => l.length
decreasing_by
  · have hp : 0 < pat.length := List.length_pos.mpr h.1
    simp only [List.length_drop, List.length_cons]
    omega
  · simp

/-- The per-symbol DataFrame cleanup of `DataFetchThread.run`
(data.py:191-195 and 234-238): `reset_index` and the `timestamp` →
`datetime` rename are presentational (index and column labels are not part
of the DF model); `df["symbol"].str.replace(f"{exchange}:", "", regex=False)`
rewrites the constant symbol column. -/
def clean_df (exchange : List Char) (df : DF) : DF :=
  ⟨df.symCol.map (fun s => replaceSeq (exchange ++ [Char.ofNat 58]) [] s), df.rows⟩

/-- Signals a `DataFetchThread` can emit (data.py:156-159); log payloads are
not modelled beyond the emission itself. -/
inductive Sig where
  | progressS : Nat → Sig
  | logS : Sig
  | dataF : List (List Char × DF) → Sig
  | errS : Sig
deriving DecidableEq

/-- The `for attempt in range(self.max_retries)` loop run for one symbol
(data.py:178-204, repeated verbatim at 221-247): each attempt logs, calls
`tv.get_hist(symbol=symbol, ...)` through the fetch oracle — indexed by the
global call counter and by the symbol passed at data.py:184-189 (`.error`
models a raised exception, caught by the inner `except` at data.py:202) —
and succeeds only on a non-empty DataFrame (`get_hist` never returns
`None`, so the `df is not None` guard is always passed by a returned
value). -/
def sym_attempts (fetchO : Nat → List Char → Except Unit DF)
    (exchange sym : List Char) : Nat → Nat → Nat × Option DF × List Sig
  | cnt, 0 => (cnt, none, [])
  | cnt, Nat.succ k =>
    match fetchO cnt sym with
    | .error _ =>
      let (c', r, sg) := sym_attempts fetchO exchange sym (cnt + 1) k
      (c', r, Sig.logS :: Sig.logS :: sg)
    | .ok df =>
      if df.rows.isEmpty then
        let (c', r, sg) := sym_attempts fetchO exchange sym (cnt + 1) k
        (c', r, Sig.logS :: Sig.logS :: sg)
      else
        (cnt + 1, some (clean_df exchange df), [Sig.logS, Sig.logS])

/-- Pass 1 of `DataFetchThread.run` (data.py:176-210): each symbol gets its
attempt loop, successes go into `results`, failures into `failed_symbols`,
and a progress value `int(((idx + 1) / total) * 100)` is emitted after each
symbol (the float division is modelled with exact natural division). -/
def pass1 (fetchO : Nat → List Char → Except Unit DF) (exchange : List Char)
    (total mr : Nat) :
    List (List Char) → Nat → Nat → List (List Char × DF) → List (List Char) →
      List (List Char × DF) × List (List Char) × Nat × List Sig
  | [], _, cnt, res, failed => (res, failed, cnt, [])
  | sym :: rest, idx, cnt, res, failed =>
    let (cnt', r, sg) := sym_attempts fetchO exchange sym cnt mr
    let prog := Sig.progressS ((idx + 1) * 100 / total)
    match r with
    | some df =>
      let (res', failed', cnt'', sg2) :=
        pass1 fetchO exchange total mr rest (idx + 1) cnt' (dictInsert res sym df) failed
      (res', failed', cnt'', sg ++ [prog] ++ sg2)
    | none =>
      let (res', failed', cnt'', sg2) :=
        pass1 fetchO exchange total mr rest (idx + 1) cnt' res (failed ++ [sym])
      (res', failed', cnt'', sg ++ [Sig.logS, prog] ++ sg2)

/-- The `for symbol in failed_symbols` body of one retry round
(data.py:219-250): re-run the attempt loop, keep new failures in order. -/
def round_pass (fetchO : Nat → List Char → Except Unit DF) (exchange : List Char)
    (mr : Nat) :
    List (List Char) → Nat → List (List Char × DF) → List (List Char) →
      List (List Char × DF) × List (List Char) × Nat × List Sig
  | [], cnt, res, nf => (res, nf, cnt, [])
  | sym :: rest, cnt, res, nf =>
    let (cnt', r, sg) := sym_attempts fetchO exchange sym cnt mr
    match r with
    | some df =>
      let (res', nf', cnt'', sg2) :=
        round_pass fetchO exchange mr rest cnt' (dictInsert res sym df) nf
      (res', nf', cnt'', sg ++ sg2)
    | none =>
      let (res', nf', cnt'', sg2) :=
        round_pass fetchO exchange mr rest cnt' res (nf ++ [sym])
      (res', nf', cnt'', sg ++ sg2)

/-- The `while failed_symbols and retry_round <= self.max_retries` loop
(data.py:212-253); the fuel is `max_retries + 1 - retry_round`. -/
def rounds (fetchO : Nat → List Char → Except Unit DF) (exchange : List Char)
    (mr : Nat) :
    Nat → List (List Char) → List (List Char × DF) → Nat →
      List (List Char × DF) × List (List Char) × Nat × List Sig
  | 0, failed, res, cnt => (res, failed, cnt, [])
  | Nat.succ k, failed, res, cnt =>
    if failed.isEmpty then (res, failed, cnt, [])
    else
      let (res', nf, cnt', sg) := round_pass fetchO exchange mr failed cnt res []
      let (res'', f'', cnt'', sg2) := rounds fetchO exchange mr k nf res' cnt'
      (res'', f'', cnt'', Sig.logS :: sg ++ sg2)

/-- `DataFetchThread.run` (data.py:170-262): pass 1, the retry rounds, the
final log line ("Final failures: ..." at data.py:256 or the all-success
message at data.py:258), then `self.data_fetched.emit(results)`.  The outer
`except Exception` (data.py:261-262) would emit the error signal, but every
collaborator failure is caught at the attempt level, so the handler is
unreachable and `run` always ends in `data_fetched`. -/
def run (fetchO : Nat → List Char → Except Unit DF) (symbols : List (List Char))
    (exchange : List Char) (mr : Nat) : List Sig :=
  let (res, failed, cnt, sg1) := pass1 fetchO exchange symbols.length mr symbols 0 0 [] []
  let (res', _, _, sg2) := rounds fetchO exchange mr mr failed res cnt
  sg1 ++ sg2 ++ [Sig.logS, Sig.dataF res']

/-! Helper lemmas about decimal printing, escaping and framing. -/

theorem digitChar_toNat (d : Nat) (h : d < 10) : (digitChar d).toNat = 48 + d := by
  interval_cases d <;> decide

theorem natChars_ne_nil (n : Nat) : natChars n ≠ [] := by
  rw [natChars_unfold]
  split <;> simp

theorem natChars_digits (n : Nat) : ∀ c ∈ natChars n, isDigitC c = true := by
  induction n using Nat.strong_induction_on with
  | _ n ih =>
    rw [natChars_unfold]
    split
    · next h =>
      intro c hc
      simp only [List.mem_singleton] at hc
      subst hc
      simp [isDigitC, digitChar_toNat n h]
      omega
    · next h =>
      intro c hc
      rcases List.mem_append.mp hc with h1 | h2
      · exact ih (n / 10) (Nat.div_lt_self (by omega) (by omega)) c h1
      · simp only [List.mem_singleton] at h2
        subst h2
        simp [isDigitC, digitChar_toNat (n % 10) (Nat.mod_lt n (by omega))]
        omega

theorem digitsVal_natChars (n : Nat) : digitsVal (natChars n) = n := by
  induction n using Nat.strong_induction_on with
  | _ n ih =>
    rw [natChars_unfold]
    split
    · next h =>
      simp [digitsVal, List.foldl, digitChar_toNat n h]
    · next h =>
      have hrec := ih (n / 10) (Nat.div_lt_self (by omega) (by omega))
      simp only [digitsVal, List.foldl_append, List.foldl] at hrec ⊢
      rw [hrec, digitChar_toNat (n % 10) (Nat.mod_lt n (by omega))]
      omega

theorem isDigitC_ascii (c : Char) (h : isDigitC c = true) : c.toNat < 128 := by
  simp [isDigitC] at h
  omega

theorem natChars_ascii (n : Nat) : ∀ c ∈ natChars n, c.toNat < 128 :=
  fun c hc => isDigitC_ascii c (natChars_digits n c hc)

theorem intChars_ascii (n : Int) : ∀ c ∈ intChars n, c.toNat < 128 := by
  intro c hc
  rw [intChars] at hc
  split at hc
  · rcases List.mem_cons.mp hc with h1 | h2
    · subst h1; decide
    · exact natChars_ascii _ c h2
  · exact natChars_ascii _ c hc

theorem hexDigit_ascii (n : Nat) (h : n < 16) : (hexDigit n).toNat < 128 := by
  interval_cases n <;> decide

theorem escU_ascii (n : Nat) : ∀ c ∈ escU n, c.toNat < 128 := by
  intro c hc
  simp only [escU, List.mem_cons, List.mem_singleton] at hc
  rcases hc with h | h | h | h | h | h | h
  · subst h; decide
  · subst h; decide
  · subst h; exact hexDigit_ascii _ (Nat.mod_lt _ (by omega))
  · subst h; exact hexDigit_ascii _ (Nat.mod_lt _ (by omega))
  · subst h; exact hexDigit_ascii _ (Nat.mod_lt _ (by omega))
  · subst h; exact hexDigit_ascii _ (Nat.mod_lt _ (by omega))
  · cases h

theorem escapeChar_ascii (x : Char) : ∀ c ∈ escapeChar x, c.toNat < 128 := by
  intro c hc
  unfold escapeChar at hc
  split_ifs at hc with h1 h2 h3 h4 h5 h6 h7 h8 h9
  · simp only [List.mem_cons, List.mem_singleton] at hc
    rcases hc with h | h | h <;> first | (subst h; decide) | cases h
  · simp only [List.mem_cons, List.mem_singleton] at hc
    rcases hc with h | h | h <;> first | (subst h; decide) | cases h
  · simp only [List.mem_cons, List.mem_singleton] at hc
    rcases hc with h | h | h <;> first | (subst h; decide) | cases h
  · simp only [List.mem_cons, List.mem_singleton] at hc
    rcases hc with h | h | h <;> first | (subst h; decide) | cases h
  · simp only [List.mem_cons, List.mem_singleton] at hc
    rcases hc with h | h | h <;> first | (subst h; decide) | cases h
  · simp only [List.mem_cons, List.mem_singleton] at hc
    rcases hc with h | h | h <;> first | (subst h; decide) | cases h
  · simp only [List.mem_cons, List.mem_singleton] at hc
    rcases hc with h | h | h <;> first | (subst h; decide) | cases h
  · simp only [List.mem_singleton] at hc
    subst hc
    omega
  · exact escU_ascii _ c hc
  · rcases List.mem_append.mp hc with h | h <;> exact escU_ascii _ c h

theorem serStr_ascii (s : List Char) : ∀ c ∈ serStr s, c.toNat < 128 := by
  intro c hc
  rw [serStr] at hc
  rcases List.mem_cons.mp hc with h | h
  · subst h; decide
  · rcases List.mem_append.mp h with h | h
    · rcases List.mem_flatten.mp h with ⟨l, hl, hcl⟩
      rcases List.mem_map.mp hl with ⟨x, _, hx⟩
      subst hx
      exact escapeChar_ascii x c hcl
    · rw [List.mem_singleton] at h
      subst h; decide

mutual

theorem serJ_ascii : ∀ (v : JVal), ∀ c ∈ serJ v, c.toNat < 128
  | .jstr s => serStr_ascii s
  | .jnum n => intChars_ascii n
  | .jarr a => by
    intro c hc
    rw [serJ] at hc
    rcases List.mem_cons.mp hc with h | h
    · subst h; decide
    · rcases List.mem_append.mp h with h | h
      · exact serArr_ascii a c h
      · rw [List.mem_singleton] at h
        subst h; decide
  | .jobj o => by
    intro c hc
    rw [serJ] at hc
    rcases List.mem_cons.mp hc with h | h
    · subst h; decide
    · rcases List.mem_append.mp h with h | h
      · exact serObj_ascii o c h
      · rw [List.mem_singleton] at h
        subst h; decide

theorem serArr_ascii : ∀ (a : JArr), ∀ c ∈ serArr a, c.toNat < 128
  | .nil => by simp [serArr]
  | .cons v a => by
    intro c hc
    simp only [serArr] at hc
    rw [List.mem_append, List.mem_append] at hc
    rcases hc with (h | h) | h
    · exact serJ_ascii v c h
    · cases a with
      | nil => cases h
      | cons w b =>
        rw [List.mem_singleton] at h
        subst h; decide
    · exact serArr_ascii a c h

theorem serObj_ascii : ∀ (o : JObj), ∀ c ∈ serObj o, c.toNat < 128
  | .nil => by simp [serObj]
  | .cons k v o => by
    intro c hc
    simp only [serObj] at hc
    rw [List.mem_append, List.mem_append, List.mem_append] at hc
    rcases hc with ((h | h) | h) | h
    · exact serStr_ascii k c h
    · rcases List.mem_cons.mp h with h' | h'
      · subst h'; decide
      · exact serJ_ascii v c h'
    · cases o with
      | nil => cases h
      | cons k2 v2 o2 =>
        rw [List.mem_singleton] at h
        subst h; decide
    · exact serObj_ascii o c h

end

theorem utf8Len_of_ascii (s : List Char) (h : ∀ c ∈ s, c.toNat < 128) :
    utf8Len s = s.length := by
  induction s with
  | nil => rfl
  | cons c cs ih =>
    have hc : c.toNat < 128 := h c (List.mem_cons_self c cs)
    simp only [utf8Len, List.map_cons, List.sum_cons, List.length_cons] at ih ⊢
    rw [utf8Sz, if_pos hc, ih (fun x hx => h x (List.mem_cons_of_mem c hx))]
    omega

theorem construct_message_ascii (f : List Char) (p : JArr) :
    ∀ c ∈ construct_message f p, c.toNat < 128 :=
  fun c hc => serJ_ascii _ c hc

theorem dropPre_append (p s : List Char) : dropPre p (p ++ s) = some s := by
  induction p with
  | nil => rfl
  | cons c cs ih => simp [dropPre, ih]

theorem takeWhile_digits_append (p : Char → Bool) (xs : List Char) (y : Char)
    (ys : List Char) (h : ∀ x ∈ xs, p x = true) (hy : p y = false) :
    (xs ++ y :: ys).takeWhile p = xs ∧ (xs ++ y :: ys).dropWhile p = y :: ys := by
  induction xs with
  | nil => simp [List.takeWhile_cons, List.dropWhile_cons, hy]
  | cons x xs ih =>
    have hx : p x = true := h x (List.mem_cons_self x xs)
    have ih' := ih (fun z hz => h z (List.mem_cons_of_mem x hz))
    simp [List.takeWhile_cons, List.dropWhile_cons, hx, ih'.1, ih'.2]

/-- C5: for every function name and parameter list, the encoded message is
`"~m~" ++ L ++ "~m~" ++ J` where `J` is the compact JSON serialization of
`{m: function, p: params}` and `L` the byte length of `J` (the serializer
emits only ASCII, so Python's character count equals the byte count), and
decoding the length prefix recovers exactly the payload length and content. -/
theorem c5_frame_roundtrip (f : List Char) (p : JArr) :
    create_message f p =
      mmHdr ++ natChars (utf8Len (construct_message f p)) ++ mmHdr ++
        construct_message f p ∧
    decode_frame (create_message f p) =
      some (utf8Len (construct_message f p), construct_message f p) := by
  have hascii := construct_message_ascii f p
  have hlen : utf8Len (construct_message f p) = (construct_message f p).length :=
    utf8Len_of_ascii _ hascii
  constructor
  · simp [create_message, prepend_header, hlen]
  · have htw := takeWhile_digits_append isDigitC
      (natChars (construct_message f p).length) (Char.ofNat 126)
      (("m~").data ++ construct_message f p)
      (natChars_digits _) (by decide)
    have h1 : dropPre mmHdr (create_message f p) =
        some (natChars (construct_message f p).length ++
          Char.ofNat 126 :: (("m~").data ++ construct_message f p)) := by
      simp [create_message, prepend_header, mmHdr, dropPre]
    have h2 : dropPre mmHdr (Char.ofNat 126 :: (("m~").data ++ construct_message f p)) =
        some (construct_message f p) := by
      simp [mmHdr, dropPre]
    have hempty : (natChars (construct_message f p).length).isEmpty = false := by
      cases hE : natChars (construct_message f p).length with
      | nil => exact absurd hE (natChars_ne_nil _)
      | cons a l => rfl
    simp only [decode_frame, h1, htw.1, htw.2, hempty, Bool.false_eq_true,
      if_false, h2, digitsVal_natChars, hlen]

/-- C8: for every symbol and futures-contract argument, the formatted symbol
is the symbol unchanged when it contains the `:` separator, otherwise the
symbol with `<index>!` appended when a contract index is given, otherwise
the symbol unchanged — and the code's `exchange` argument plays no role
(the spec-side rule `spec_format_symbol` does not even receive it;
`get_hist` itself passes `exchange=None` at main.py:233). -/
theorem c8_format_symbol (symbol : List Char) (exchange : Option (List Char))
    (contract : Option Int) :
    format_symbol symbol exchange contract = spec_format_symbol symbol contract := by
  unfold format_symbol spec_format_symbol
  split <;> cases contract <;> rfl

/-! Stream-parser stickiness (claim C6). -/

/-- Expected row for a record parsed while volume data is still trusted:
timestamp and OHLC fields with per-field zero substitution, volume taken
from a successful parse of position 9. -/
def specRowVol (pf : List Char → Option ℚ) (r : List (List Char)) : Row :=
  [(fieldAt pf r 4).getD 0, (fieldAt pf r 5).getD 0, (fieldAt pf r 6).getD 0,
   (fieldAt pf r 7).getD 0, (fieldAt pf r 8).getD 0, (fieldAt pf r 9).getD 0]

/-- Expected row once the series is known to lack volume data: position 9 is
never consulted and the volume is the constant 0. -/
def specRowNoVol (pf : List Char → Option ℚ) (r : List (List Char)) : Row :=
  [(fieldAt pf r 4).getD 0, (fieldAt pf r 5).getD 0, (fieldAt pf r 6).getD 0,
   (fieldAt pf r 7).getD 0, (fieldAt pf r 8).getD 0, 0]

/-- Closed form of the sticky-volume record loop: the first `k` records keep
their parsed volume, every later record gets volume 0 with position 9
ignored. -/
def expectedRows (pf : List Char → Option ℚ) : Nat → List (List (List Char)) → List Row
  | _, [] => []
  | 0, r :: rs => specRowNoVol pf r :: expectedRows pf 0 rs
  | Nat.succ k, r :: rs => specRowVol pf r :: expectedRows pf k rs

theorem processFields_false (pf : List Char → Option ℚ) (r : List (List Char)) :
    processFields pf r false =
      ([(fieldAt pf r 5).getD 0, (fieldAt pf r 6).getD 0, (fieldAt pf r 7).getD 0,
        (fieldAt pf r 8).getD 0, 0], false) := by
  unfold processFields
  cases fieldAt pf r 9 <;> rfl

theorem create_df_rows_false (pf : List Char → Option ℚ)
    (recs : List (List (List Char))) (h : ∀ r ∈ recs, (fieldAt pf r 4).isSome) :
    create_df_rows pf false recs = .ok (recs.map (specRowNoVol pf)) := by
  induction recs with
  | nil => rfl
  | cons r rs ih =>
    have h4 := h r (List.mem_cons_self r rs)
    rw [create_df_rows]
    unfold processRecord
    rcases hg : r.get? 4 with _ | t
    · rw [fieldAt, hg] at h4; cases h4
    · rcases hp : pf t with _ | ts
      · rw [fieldAt, hg] at h4; simp [hp] at h4
      · have hts : (fieldAt pf r 4).getD 0 = ts := by rw [fieldAt, hg]; simp [hp]
        simp only [create_df_rows, processRecord, hg, hp, processFields_false]
        rw [ih (fun x hx => h x (List.mem_cons_of_mem r hx))]
        simp only [specRowNoVol, hts, List.map_cons]

theorem expectedRows_zero (pf : List Char → Option ℚ) (recs : List (List (List Char))) :
    expectedRows pf 0 recs = recs.map (specRowNoVol pf) := by
  induction recs with
  | nil => rfl
  | cons r rs ih => rw [expectedRows, ih, List.map_cons]

/-- C6: in the stream parser's record loop, the first record whose volume
field (position 9) fails to parse switches the series to volume 0: that
record and all later ones get volume 0 with position 9 never consulted
again (the closed form `expectedRows` builds them with `specRowNoVol`,
which ignores position 9), records before it keep their parsed volume,
non-volume field failures substitute 0 for that field only (the `getD 0`
in both row shapes), and no exception is raised as long as each record's
timestamp field parses. -/
theorem c6_volume_sticky (pf : List Char → Option ℚ)
    (recs : List (List (List Char))) (h : ∀ r ∈ recs, (fieldAt pf r 4).isSome) :
    create_df_rows pf true recs =
      .ok (expectedRows pf (recs.findIdx (fun r => (fieldAt pf r 9).isNone)) recs) := by
  induction recs with
  | nil => rfl
  | cons r rs ih =>
    have h4 := h r (List.mem_cons_self r rs)
    have hrest : ∀ x ∈ rs, (fieldAt pf x 4).isSome :=
      fun x hx => h x (List.mem_cons_of_mem r hx)
    rcases hg : r.get? 4 with _ | t
    · rw [fieldAt, hg] at h4; cases h4
    rcases hp : pf t with _ | ts
    · rw [fieldAt, hg] at h4; simp [hp] at h4
    rcases hv : fieldAt pf r 9 with _ | v
    · have hfi : (r :: rs).findIdx (fun x => (fieldAt pf x 9).isNone) = 0 := by
        simp [List.findIdx_cons, hv]
      have hts : (fieldAt pf r 4).getD 0 = ts := by rw [fieldAt, hg]; simp [hp]
      rw [hfi, expectedRows, expectedRows_zero]
      simp only [create_df_rows, processRecord, hg, hp, processFields, hv]
      rw [create_df_rows_false pf rs hrest]
      simp only [specRowNoVol, hts, List.map_cons]
    · have hfi : (r :: rs).findIdx (fun x => (fieldAt pf x 9).isNone) =
          rs.findIdx (fun x => (fieldAt pf x 9).isNone) + 1 := by
        simp [List.findIdx_cons, hv]
      have hts : (fieldAt pf r 4).getD 0 = ts := by rw [fieldAt, hg]; simp [hp]
      have hv9 : (fieldAt pf r 9).getD 0 = v := by rw [hv]; rfl
      rw [hfi, expectedRows]
      simp only [create_df_rows, processRecord, hg, hp, processFields, hv]
      rw [ih hrest]
      simp only [specRowVol, hts, hv9]

/-- Concrete float-conversion oracle for the C6 witness: single decimal
digits parse, everything else fails. -/
def pfW : List Char → Option ℚ :=
  fun s => match s with
  | [c] => if isDigitC c then some (((c.toNat - 48 : Nat) : ℚ)) else none
  | _ => none

/-- A witness record with the given volume token: four unread leading
tokens, then timestamp and OHLC digits. -/
def recW (vol : List Char) : List (List Char) :=
  [[], [], [], [], ("1").data, ("2").data, ("3").data, ("4").data, ("5").data, vol]

/-- Five records: volume parses for two records, fails at the third, and the
last two records carry parsable volume tokens that must nevertheless be
ignored. -/
def recsW : List (List (List Char)) :=
  [recW ("6").data, recW ("6").data, recW ("x").data, recW ("7").data, recW ("8").data]

theorem c6_witness :
    (∀ r ∈ recsW, (fieldAt pfW r 4).isSome) ∧
    create_df_rows pfW true recsW =
      .ok (expectedRows pfW (recsW.findIdx (fun r => (fieldAt pfW r 9).isNone)) recsW) :=
  ⟨by decide, c6_volume_sticky pfW recsW (by decide)⟩

/-! Exception safety and retry accounting of get_hist (claims C1, C2). -/

theorem attempts_loop_ok (env : Env) (token formatted ivalue : List Char)
    (n_bars : Int) (extended : Bool) (session chart : List Char) :
    ∀ (k : Nat) (s : WSState), ∃ s' tr r,
      attempts_loop env token formatted ivalue n_bars extended session chart k s =
        (s', tr, Except.ok r) := by
  intro k
  induction k with
  | zero => intro s; exact ⟨s, [], none, rfl⟩
  | succ k ih =>
    intro s
    rcases hA : attempt_try env token formatted ivalue n_bars extended session chart s
      with ⟨s1, t1, rr⟩
    obtain ⟨s', tr, r, hres⟩ := ih s1
    rcases rr with e | od
    · refine ⟨s', t1 ++ (if s1.wsSet then [Event.closeEvt] else []) ++ tr, r, ?_⟩
      simp only [attempts_loop, hA, hres]
    · rcases od with _ | df
      · refine ⟨s', t1 ++ (if s1.wsSet then [Event.closeEvt] else []) ++ tr, r, ?_⟩
        simp only [attempts_loop, hA, hres]
      · refine ⟨s1, t1 ++ (if s1.wsSet then [Event.closeEvt] else []), some df, ?_⟩
        simp only [attempts_loop, hA]

theorem get_hist_ok (env : Env) (token symbol exchange : List Char)
    (interval : Interval) (n_bars : Int) (fut_contract : Option Int)
    (extended_session : Bool) (s0 : WSState) :
    ∃ s' tr df,
      get_hist env token symbol exchange interval n_bars fut_contract
        extended_session s0 = (s', tr, Except.ok df) := by
  obtain ⟨s', tr, r, h⟩ := attempts_loop_ok env token
    (format_symbol symbol none fut_contract) interval.value n_bars extended_session
    (("qs_").data ++ env.randWord s0.rand)
    (("cs_").data ++ env.randWord (s0.rand + 1))
    max_retries
    ⟨s0.opens, s0.sends, s0.recvs, s0.rand + 1 + 1, s0.wsSet⟩
  rcases r with _ | df
  · exact ⟨s', tr, emptyDF, by
      simp only [get_hist, generate_session, generate_chart_session, h]⟩
  · exact ⟨s', tr, df, by
      simp only [get_hist, generate_session, generate_chart_session, h]⟩

/-- C1: for every input within the declared parameter types and every
behaviour of the transport (connections, sends and receives may all fail
arbitrarily) and of the float parser, `get_hist` returns a DataFrame
(populated or empty) with `Except.ok`: no exception reaches the caller,
because every attempt's failure is swallowed by the `except Exception`
clause at main.py:303. -/
theorem c1_get_hist_never_raises (env : Env) (token symbol exchange : List Char)
    (interval : Interval) (n_bars : Int) (fut_contract : Option Int)
    (extended_session : Bool) (s0 : WSState) :
    ∃ s' tr df,
      get_hist env token symbol exchange interval n_bars fut_contract
        extended_session s0 = (s', tr, Except.ok df) :=
  get_hist_ok env token symbol exchange interval n_bars fut_contract
    extended_session s0

theorem create_connection_loop_allfail (env : Env) (h : ∀ n, env.connOk n = false) :
    ∀ (k : Nat) (s : WSState),
      create_connection_loop env k s =
        (⟨s.opens + k, s.sends, s.recvs, s.rand, s.wsSet⟩,
          List.replicate k (Event.openEvt false), Except.error ()) := by
  intro k
  induction k with
  | zero => intro s; rfl
  | succ k ih =>
    intro s
    simp only [create_connection_loop, h, Bool.false_eq_true, if_false,
      Bool.or_false, ih]
    have harith : s.opens + 1 + k = s.opens + (k + 1) := by omega
    rw [harith, List.replicate_succ]

theorem attempt_try_allfail (env : Env) (h : ∀ n, env.connOk n = false)
    (token formatted ivalue : List Char) (n_bars : Int) (extended : Bool)
    (session chart : List Char) (s : WSState) :
    attempt_try env token formatted ivalue n_bars extended session chart s =
      (⟨s.opens + max_retries, s.sends, s.recvs, s.rand, s.wsSet⟩,
        List.replicate max_retries (Event.openEvt false), Except.error ()) := by
  unfold attempt_try create_connection
  rw [create_connection_loop_allfail env h]

theorem attempts_loop_allfail (env : Env) (h : ∀ n, env.connOk n = false)
    (token formatted ivalue : List Char) (n_bars : Int) (extended : Bool)
    (session chart : List Char) :
    ∀ (k : Nat) (s : WSState), ∃ tr,
      attempts_loop env token formatted ivalue n_bars extended session chart k s =
        (⟨s.opens + max_retries * k, s.sends, s.recvs, s.rand, s.wsSet⟩, tr,
          Except.ok none) := by
  intro k
  induction k with
  | zero =>
    intro s
    exact ⟨[], by rfl⟩
  | succ k ih =>
    intro s
    obtain ⟨tr, htr⟩ := ih ⟨s.opens + max_retries, s.sends, s.recvs, s.rand, s.wsSet⟩
    refine ⟨List.replicate max_retries (Event.openEvt false) ++
      (if s.wsSet then [Event.closeEvt] else []) ++ tr, ?_⟩
    simp only [attempts_loop, attempt_try_allfail env h, htr]
    have harith : s.opens + max_retries + max_retries * k =
        s.opens + max_retries * (k + 1) := by ring
    rw [harith]

theorem get_hist_allfail (env : Env) (h : ∀ n, env.connOk n = false)
    (token symbol exchange : List Char) (interval : Interval) (n_bars : Int)
    (fut_contract : Option Int) (extended_session : Bool) (s0 : WSState) :
    ∃ tr,
      get_hist env token symbol exchange interval n_bars fut_contract
        extended_session s0 =
      (⟨s0.opens + max_retries * max_retries, s0.sends, s0.recvs, s0.rand + 2,
        s0.wsSet⟩, tr, Except.ok emptyDF) := by
  obtain ⟨tr, htr⟩ := attempts_loop_allfail env h token
    (format_symbol symbol none fut_contract) interval.value n_bars extended_session
    (("qs_").data ++ env.randWord s0.rand)
    (("cs_").data ++ env.randWord (s0.rand + 1))
    max_retries
    ⟨s0.opens, s0.sends, s0.recvs, s0.rand + 1 + 1, s0.wsSet⟩
  refine ⟨tr, ?_⟩
  simp only [get_hist, generate_session, generate_chart_session, htr]

/-- C2 (amended): when the transport's connection-open operation fails on
every invocation, `get_hist` performs `max_retries * max_retries = 9`
connection-open attempts in total (`__create_connection` makes
`max_retries` websocket `create_connection` calls per fetch attempt,
main.py:95-107, and the attempt loop restarts it `max_retries` times,
main.py:239-242), performs no sends and no receives, returns the empty
DataFrame and raises no exception. -/
theorem c2_amended_retry_bound (env : Env) (h : ∀ n, env.connOk n = false)
    (token symbol exchange : List Char) (interval : Interval) (n_bars : Int)
    (fut_contract : Option Int) (extended_session : Bool) (s0 : WSState) :
    ∃ tr,
      get_hist env token symbol exchange interval n_bars fut_contract
        extended_session s0 =
      (⟨s0.opens + max_retries * max_retries, s0.sends, s0.recvs, s0.rand + 2,
        s0.wsSet⟩, tr, Except.ok emptyDF) :=
  get_hist_allfail env h token symbol exchange interval n_bars fut_contract
    extended_session s0

/-- The all-failing transport used to refute the claimed retry bound. -/
def envAF : Env := ⟨fun _ => false, fun _ => true, fun _ => none, fun _ => [], fun _ => none⟩

/-- C2 (counterexample): with a transport whose connection-open fails on
every invocation, `get_hist` performs 9 connection-open attempts, not
`max_retries = 3` as the claim states (it does return an empty series and
raise no exception). -/
theorem c2_counterexample :
    (get_hist envAF ("t").data ("AAPL").data ("NSE").data Interval.in_daily 10
      none false WSState.init).1.opens = 9 ∧
    (get_hist envAF ("t").data ("AAPL").data ("NSE").data Interval.in_daily 10
      none false WSState.init).2.2 = Except.ok emptyDF ∧
    (9 : Nat) ≠ max_retries := by
  refine ⟨by rfl, by rfl, by decide⟩

theorem c2_witness :
    (∀ n, envAF.connOk n = false) ∧
    ∃ tr,
      get_hist envAF ("t").data ("AAPL").data ("NSE").data Interval.in_daily 10
        none false WSState.init =
      (⟨WSState.init.opens + max_retries * max_retries, WSState.init.sends,
        WSState.init.recvs, WSState.init.rand + 2, WSState.init.wsSet⟩, tr,
        Except.ok emptyDF) :=
  ⟨fun _ => rfl,
    c2_amended_retry_bound envAF (fun _ => rfl) ("t").data ("AAPL").data
      ("NSE").data Interval.in_daily 10 none false WSState.init⟩

/-! Result keys of get_multiple_hist (claim C10). -/

theorem lookupD_dictInsert (k k' : List Char) (v : DF) :
    ∀ m, lookupD (dictInsert m k v) k' =
      if k = k' then some v else lookupD m k' := by
  intro m
  induction m with
  | nil =>
    by_cases hk : k = k' <;> simp [dictInsert, lookupD, hk]
  | cons p t ih =>
    rcases p with ⟨a, b⟩
    by_cases hak : a = k
    · subst hak
      by_cases hk : a = k' <;> simp [dictInsert, lookupD, hk]
    · by_cases hk : a = k'
      · subst hk
        have : ¬ k = a := fun hh => hak hh.symm
        simp [dictInsert, lookupD, hak, this]
      · simp [dictInsert, lookupD, hak, hk, ih]

theorem gmh_go_keys (env : Env) (token exchange : List Char) (interval : Interval)
    (n_bars : Int) (fut_contract : Option Int) (extended_session : Bool) :
    ∀ (syms : List (List Char)) (s : WSState) (acc : List (List Char × DF)),
      ∃ s' tr m,
        get_multiple_hist_go env token exchange interval n_bars fut_contract
          extended_session syms s acc = (s', tr, Except.ok m) ∧
        ∀ k, (lookupD m k).isSome ↔ k ∈ syms ∨ (lookupD acc k).isSome := by
  intro syms
  induction syms with
  | nil =>
    intro s acc
    exact ⟨s, [], acc, rfl, fun k => by simp⟩
  | cons sym rest ih =>
    intro s acc
    obtain ⟨s1, tr1, df, hdf⟩ := get_hist_ok env token sym exchange interval
      n_bars fut_contract extended_session s
    obtain ⟨s', tr, m, hm, hkeys⟩ := ih s1 (dictInsert acc sym df)
    refine ⟨s', tr1 ++ tr, m, ?_, ?_⟩
    · simp only [get_multiple_hist_go, hdf, hm]
    · intro k
      rw [hkeys k, List.mem_cons]
      by_cases hk : sym = k
      · subst hk
        simp [lookupD_dictInsert]
      · have hk' : ¬ k = sym := fun hh => hk hh.symm
        simp [lookupD_dictInsert, hk, hk']

theorem gmh_go_allfail (env : Env) (h : ∀ n, env.connOk n = false)
    (token exchange : List Char) (interval : Interval) (n_bars : Int)
    (fut_contract : Option Int) (extended_session : Bool) :
    ∀ (syms : List (List Char)) (s : WSState) (acc : List (List Char × DF)),
      ∃ s' tr m,
        get_multiple_hist_go env token exchange interval n_bars fut_contract
          extended_session syms s acc = (s', tr, Except.ok m) ∧
        ∀ k, lookupD m k = if k ∈ syms then some emptyDF else lookupD acc k := by
  intro syms
  induction syms with
  | nil =>
    intro s acc
    exact ⟨s, [], acc, rfl, fun k => by simp⟩
  | cons sym rest ih =>
    intro s acc
    obtain ⟨tr1, hdf⟩ := get_hist_allfail env h token sym exchange interval
      n_bars fut_contract extended_session s
    obtain ⟨s', tr, m, hm, hval⟩ := ih
      ⟨s.opens + max_retries * max_retries, s.sends, s.recvs, s.rand + 2, s.wsSet⟩
      (dictInsert acc sym emptyDF)
    refine ⟨s', tr1 ++ tr, m, ?_, ?_⟩
    · simp only [get_multiple_hist_go, hdf, hm]
    · intro k
      rw [hval k]
      by_cases hmem : k ∈ rest
      · simp [hmem, List.mem_cons]
      · by_cases hk : sym = k
        · subst hk
          simp [hmem, lookupD_dictInsert]
        · have hk' : ¬ k = sym := fun hh => hk hh.symm
          simp [hmem, hk', lookupD_dictInsert, hk]

/-- C10: for every symbol list (and every transport behaviour),
`get_multiple_hist` returns (without raising) a mapping whose key set is
exactly the input symbols; in particular with a transport on which every
fetch fails, each input symbol is still present as a key and is mapped to
the empty DataFrame rather than omitted. -/
theorem c10_keys (env : Env) (token : List Char) (symbols : List (List Char))
    (exchange : List Char) (interval : Interval) (n_bars : Int)
    (fut_contract : Option Int) (extended_session : Bool) (s0 : WSState) :
    ∃ s' tr m,
      get_multiple_hist env token symbols exchange interval n_bars fut_contract
        extended_session s0 = (s', tr, Except.ok m) ∧
      (∀ sym, (lookupD m sym).isSome ↔ sym ∈ symbols) ∧
      ((∀ n, env.connOk n = false) →
        ∀ sym ∈ symbols, lookupD m sym = some emptyDF) := by
  obtain ⟨s', tr, m, hm, hkeys⟩ := gmh_go_keys env token exchange interval n_bars
    fut_contract extended_session symbols s0 []
  refine ⟨s', tr, m, hm, ?_, ?_⟩
  · intro sym
    rw [hkeys sym]
    simp [lookupD]
  · intro hAF sym hmem
    obtain ⟨s2, tr2, m2, hm2, hval⟩ := gmh_go_allfail env hAF token exchange
      interval n_bars fut_contract extended_session symbols s0 []
    rw [hm] at hm2
    have hmm : m = m2 := by
      have := congrArg (fun p => p.2.2) hm2
      simpa using this
    rw [hmm, hval sym, if_pos hmem]

theorem c10_witness :
    (∀ n, envAF.connOk n = false) ∧
    ∃ s' tr m,
      get_multiple_hist envAF ("t").data [("A").data] ("NSE").data
        Interval.in_daily 10 none false WSState.init = (s', tr, Except.ok m) ∧
      (∀ sym, (lookupD m sym).isSome ↔ sym ∈ [("A").data]) ∧
      (∀ sym ∈ [("A").data], lookupD m sym = some emptyDF) := by
  obtain ⟨s', tr, m, hm, hkeys, hval⟩ := c10_keys envAF ("t").data [("A").data]
    ("NSE").data Interval.in_daily 10 none false WSState.init
  exact ⟨fun _ => rfl, s', tr, m, hm, hkeys, hval (fun _ => rfl)⟩

/-! Handshake send order (claim C7). -/

/-- The function names of the send events of a trace, in order. -/
def sentFuncs (tr : List Event) : List (List Char) :=
  tr.filterMap (fun e => match e with | .sendEvt f _ _ => some f | _ => none)

/-- The protocol send order required per attempt (main.py:245-269). -/
def canonOrder : List (List Char) :=
  [("set_auth_token").data, ("chart_create_session").data,
   ("quote_create_session").data, ("quote_set_fields").data,
   ("quote_add_symbols").data, ("quote_fast_symbols").data,
   ("resolve_symbol").data, ("create_series").data, ("switch_timezone").data]

theorem sentFuncs_append (a b : List Event) :
    sentFuncs (a ++ b) = sentFuncs a ++ sentFuncs b := by
  simp [sentFuncs, List.filterMap_append]

theorem create_connection_loop_no_sends (env : Env) :
    ∀ (k : Nat) (s : WSState), sentFuncs (create_connection_loop env k s).2.1 = [] := by
  intro k
  induction k with
  | zero => intro s; rfl
  | succ k ih =>
    intro s
    cases hc : env.connOk s.opens with
    | true => simp [create_connection_loop, hc, sentFuncs]
    | false =>
      have ih' := ih ⟨s.opens + 1, s.sends, s.recvs, s.rand, s.wsSet || false⟩
      rcases hl : create_connection_loop env k
        ⟨s.opens + 1, s.sends, s.recvs, s.rand, s.wsSet || false⟩ with ⟨s'', tr, r⟩
      rw [hl] at ih'
      simp only [create_connection_loop, hc, Bool.false_eq_true, if_false, hl]
      simpa [sentFuncs] using ih'

theorem read_loop_no_sends (env : Env) (formatted : List Char) :
    ∀ (fuel : Nat) (raw : List Char) (s : WSState),
      sentFuncs (read_loop env formatted fuel raw s).2.1 = [] := by
  intro fuel
  induction fuel with
  | zero => intro raw s; rfl
  | succ fuel ih =>
    intro raw s
    rcases hr : env.recv s.recvs with _ | result
    · simp [read_loop, hr, sentFuncs]
    · by_cases hcm : completedMarker <:+: result
      · simp only [read_loop, hr]
        rw [if_pos hcm]
        rcases hdf : create_df env.pyFloat (raw ++ result ++ [Char.ofNat 10])
          formatted with e | df
        · simp [sentFuncs]
        · by_cases hE : df.rows.isEmpty <;> simp [hE, sentFuncs]
      · by_cases herr : errorMarker <:+: result
        · simp only [read_loop, hr]
          rw [if_neg hcm, if_pos herr]
          simp [sentFuncs]
        · have ih' := ih (raw ++ result ++ [Char.ofNat 10])
            ⟨s.opens, s.sends, s.recvs + 1, s.rand, s.wsSet⟩
          rcases hl : read_loop env formatted fuel (raw ++ result ++ [Char.ofNat 10])
            ⟨s.opens, s.sends, s.recvs + 1, s.rand, s.wsSet⟩ with ⟨s'', tr, r⟩
          rw [hl] at ih'
          simp only [read_loop, hr]
          rw [if_neg hcm, if_neg herr]
          simp only [hl]
          simpa [sentFuncs] using ih'

theorem send_all_spec (env : Env) :
    ∀ (msgs : List (List Char × JArr)) (s : WSState),
      sentFuncs (send_all env msgs s).2.1 <+: msgs.map Prod.fst ∧
      ((send_all env msgs s).2.2 = Except.ok () →
        sentFuncs (send_all env msgs s).2.1 = msgs.map Prod.fst) ∧
      ((∀ n, env.sendOk n = true) → (send_all env msgs s).2.2 = Except.ok ()) := by
  intro msgs
  induction msgs with
  | nil => intro s; exact ⟨List.nil_prefix, fun _ => rfl, fun _ => rfl⟩
  | cons fa rest ih =>
    intro s
    rcases fa with ⟨f, a⟩
    cases hok : env.sendOk s.sends with
    | false =>
      have hstep : send_all env ((f, a) :: rest) s =
          (⟨s.opens, s.sends + 1, s.recvs, s.rand, s.wsSet⟩,
            [Event.sendEvt f (create_message f a) false], Except.error ()) := by
        simp [send_all, send_message, hok]
      rw [hstep]
      refine ⟨⟨rest.map Prod.fst, rfl⟩, ?_, ?_⟩
      · intro hcontra; cases hcontra
      · intro hall
        rw [hall s.sends] at hok
        cases hok
    | true =>
      obtain ⟨h1, h2, h3⟩ := ih ⟨s.opens, s.sends + 1, s.recvs, s.rand, s.wsSet⟩
      rcases hrest : send_all env rest ⟨s.opens, s.sends + 1, s.recvs, s.rand, s.wsSet⟩
        with ⟨s'', tr, r⟩
      rw [hrest] at h1 h2 h3
      have hstep : send_all env ((f, a) :: rest) s =
          (s'', Event.sendEvt f (create_message f a) true :: tr, r) := by
        simp [send_all, send_message, hok, hrest]
      rw [hstep]
      have hsf : sentFuncs (Event.sendEvt f (create_message f a) true :: tr) =
          f :: sentFuncs tr := by
        simp [sentFuncs]
      refine ⟨?_, ?_, h3⟩
      · obtain ⟨t, ht⟩ := h1
        exact ⟨t, by simp [hsf, ht]⟩
      · intro hres
        simp [hsf, h2 hres]

theorem create_connection_first_ok (env : Env) (s : WSState)
    (h : env.connOk s.opens = true) :
    create_connection env s =
      (⟨s.opens + 1, s.sends, s.recvs, s.rand, true⟩, [Event.openEvt true],
        Except.ok ()) := by
  simp [create_connection, max_retries, create_connection_loop, h]

set_option maxRecDepth 4000 in
/-- C7: in every fetch attempt the protocol messages are sent in exactly the
order `set_auth_token, chart_create_session, quote_create_session,
quote_set_fields, quote_add_symbols, quote_fast_symbols, resolve_symbol,
create_series, switch_timezone`: the sequence of function names sent is
always a prefix of that list (a transport failure can only truncate it,
never reorder it), and when the first connection open succeeds and every
send succeeds it is exactly that list. -/
theorem c7_send_order (env : Env) (token formatted ivalue : List Char)
    (n_bars : Int) (extended : Bool) (session chart : List Char) (s : WSState) :
    sentFuncs (attempt_try env token formatted ivalue n_bars extended session
      chart s).2.1 <+: canonOrder ∧
    (env.connOk s.opens = true → (∀ n, env.sendOk n = true) →
      sentFuncs (attempt_try env token formatted ivalue n_bars extended session
        chart s).2.1 = canonOrder) := by
  have hcanon : (msgsFor token session chart formatted ivalue n_bars extended).map
      Prod.fst = canonOrder := rfl
  rcases hC : create_connection env s with ⟨s1, t1, r1⟩
  have hCno : sentFuncs t1 = [] := by
    have hx := create_connection_loop_no_sends env max_retries s
    rw [show create_connection_loop env max_retries s = (s1, t1, r1) from hC] at hx
    exact hx
  rcases r1 with e | u
  · have hat : attempt_try env token formatted ivalue n_bars extended session chart s =
        (s1, t1, Except.error e) := by
      simp only [attempt_try, hC]
    rw [hat]
    refine ⟨by simp [hCno], ?_⟩
    intro hconn hsend
    rw [create_connection_first_ok env s hconn] at hC
    simp at hC
  · obtain ⟨hp, he, hok⟩ := send_all_spec env
      (msgsFor token session chart formatted ivalue n_bars extended) s1
    rcases hS : send_all env (msgsFor token session chart formatted ivalue n_bars
      extended) s1 with ⟨s2, t2, r2⟩
    rw [hS] at hp he hok
    rcases r2 with e2 | u2
    · have hat : attempt_try env token formatted ivalue n_bars extended session chart s =
          (s2, t1 ++ t2, Except.error e2) := by
        simp only [attempt_try, hC, hS]
      rw [hat]
      refine ⟨?_, ?_⟩
      · rw [sentFuncs_append, hCno, hcanon] at *
        simpa using hp
      · intro hconn hsend
        have hcontra := hok hsend
        simp at hcontra
    · rcases hR : read_loop env formatted max_messages [] s2 with ⟨s3, t3, stop⟩
      have hRno : sentFuncs t3 = [] := by
        have hx := read_loop_no_sends env formatted max_messages [] s2
        rw [hR] at hx
        exact hx
      have hat : attempt_try env token formatted ivalue n_bars extended session chart s =
          (s3, t1 ++ t2 ++ t3,
            Except.ok (match stop with | ReadStop.success df => some df | _ => none)) := by
        simp only [attempt_try, hC, hS, hR]
        cases stop <;> rfl
      rw [hat]
      have hsf : sentFuncs (t1 ++ t2 ++ t3) = sentFuncs t2 := by
        rw [sentFuncs_append, sentFuncs_append, hCno, hRno]
        simp
      refine ⟨?_, ?_⟩
      · rw [hsf, ← hcanon]
        exact hp
      · intro hconn hsend
        rw [hsf, he (hok hsend), hcanon]

/-- A transport whose opens and sends all succeed and whose receive always
raises; the random stream yields a distinct letter per draw. -/
def envC : Env :=
  ⟨fun _ => true, fun _ => true, fun _ => none,
   fun n => [Char.ofNat (97 + n % 26)], fun _ => none⟩

theorem c7_witness :
    sentFuncs (attempt_try envC ("t").data ("AAPL").data ("1D").data 10 false
      ("qs_a").data ("cs_b").data WSState.init).2.1 <+: canonOrder ∧
    sentFuncs (attempt_try envC ("t").data ("AAPL").data ("1D").data 10 false
      ("qs_a").data ("cs_b").data WSState.init).2.1 = canonOrder := by
  obtain ⟨h1, h2⟩ := c7_send_order envC ("t").data ("AAPL").data ("1D").data 10
    false ("qs_a").data ("cs_b").data WSState.init
  exact ⟨h1, h2 rfl (fun _ => rfl)⟩

/-! Session-id lifetime (claim C4). -/

/-- The framed payloads of all `quote_create_session` sends in a trace. -/
def qcsMsgs (tr : List Event) : List (List Char) :=
  tr.filterMap (fun e => match e with
    | .sendEvt f m _ => if f = ("quote_create_session").data then some m else none
    | _ => none)

/-- C4 (counterexample): with a transport whose opens and sends succeed and
whose receive always fails, `get_hist` runs all three retry attempts, and
all three `quote_create_session` messages carry the same session id
`qs_a` — the ids are generated once before the attempt loop
(main.py:236-237), so they are reused across retry attempts, contradicting
the claimed per-attempt freshness. -/
theorem c4_counterexample :
    qcsMsgs (get_hist envC ("t").data ("AAPL").data ("NSE").data Interval.in_daily
      10 none false WSState.init).2.1 =
    [create_message ("quote_create_session").data (.ofList [.jstr ("qs_a").data]),
     create_message ("quote_create_session").data (.ofList [.jstr ("qs_a").data]),
     create_message ("quote_create_session").data (.ofList [.jstr ("qs_a").data])] := by
  decide

theorem no_send_of_sentFuncs_nil (tr : List Event) (h : sentFuncs tr = []) :
    ∀ e ∈ tr, ∀ f m ok, e ≠ Event.sendEvt f m ok := by
  intro e he f m ok heq
  subst heq
  have h2 := (List.filterMap_eq_nil_iff.mp h) _ he
  simp at h2

theorem send_all_sends (env : Env) :
    ∀ (msgs : List (List Char × JArr)) (s : WSState),
      ∀ e ∈ (send_all env msgs s).2.1, ∀ f m ok, e = Event.sendEvt f m ok →
        ∃ a, (f, a) ∈ msgs ∧ m = create_message f a := by
  intro msgs
  induction msgs with
  | nil => intro s e he; cases he
  | cons ga rest ih =>
    intro s e he f m ok heq
    rcases ga with ⟨g, a⟩
    cases hok : env.sendOk s.sends with
    | false =>
      have hstep : send_all env ((g, a) :: rest) s =
          (⟨s.opens, s.sends + 1, s.recvs, s.rand, s.wsSet⟩,
            [Event.sendEvt g (create_message g a) false], Except.error ()) := by
        simp [send_all, send_message, hok]
      rw [hstep] at he
      subst heq
      have h := List.mem_singleton.mp he
      rw [Event.sendEvt.injEq] at h
      obtain ⟨hf, hm, _⟩ := h
      subst hf
      exact ⟨a, List.mem_cons_self _ _, by rw [hm]⟩
    | true =>
      rcases hrest : send_all env rest ⟨s.opens, s.sends + 1, s.recvs, s.rand, s.wsSet⟩
        with ⟨s'', tr, r⟩
      have hstep : send_all env ((g, a) :: rest) s =
          (s'', Event.sendEvt g (create_message g a) true :: tr, r) := by
        simp [send_all, send_message, hok, hrest]
      rw [hstep] at he
      rcases List.mem_cons.mp he with h | h
      · subst heq
        rw [Event.sendEvt.injEq] at h
        obtain ⟨hf, hm, _⟩ := h
        subst hf
        exact ⟨a, List.mem_cons_self _ _, by rw [hm]⟩
      · have hrec := ih ⟨s.opens, s.sends + 1, s.recvs, s.rand, s.wsSet⟩ e
          (by rw [hrest]; exact h) f m ok heq
        rcases hrec with ⟨a', ha', hm⟩
        exact ⟨a', List.mem_cons_of_mem _ ha', hm⟩

theorem attempt_try_sends (env : Env) (token formatted ivalue : List Char)
    (n_bars : Int) (extended : Bool) (session chart : List Char) (s : WSState) :
    ∀ e ∈ (attempt_try env token formatted ivalue n_bars extended session chart
      s).2.1, ∀ f m ok, e = Event.sendEvt f m ok →
      ∃ a, (f, a) ∈ msgsFor token session chart formatted ivalue n_bars extended ∧
        m = create_message f a := by
  intro e he f m ok heq
  rcases hC : create_connection env s with ⟨s1, t1, r1⟩
  have hCno : sentFuncs t1 = [] := by
    have hx := create_connection_loop_no_sends env max_retries s
    rw [show create_connection_loop env max_retries s = (s1, t1, r1) from hC] at hx
    exact hx
  rcases r1 with e1 | u1
  · rw [show attempt_try env token formatted ivalue n_bars extended session chart s =
        (s1, t1, Except.error e1) from by simp only [attempt_try, hC]] at he
    exact absurd heq (no_send_of_sentFuncs_nil t1 hCno e he f m ok)
  · rcases hS : send_all env (msgsFor token session chart formatted ivalue n_bars
      extended) s1 with ⟨s2, t2, r2⟩
    rcases r2 with e2 | u2
    · rw [show attempt_try env token formatted ivalue n_bars extended session chart s =
          (s2, t1 ++ t2, Except.error e2) from by simp only [attempt_try, hC, hS]] at he
      rcases List.mem_append.mp he with h | h
      · exact absurd heq (no_send_of_sentFuncs_nil t1 hCno e h f m ok)
      · exact send_all_sends env _ s1 e (by rw [hS]; exact h) f m ok heq
    · rcases hR : read_loop env formatted max_messages [] s2 with ⟨s3, t3, stop⟩
      have hRno : sentFuncs t3 = [] := by
        have hx := read_loop_no_sends env formatted max_messages [] s2
        rw [hR] at hx
        exact hx
      rw [show attempt_try env token formatted ivalue n_bars extended session chart s =
          (s3, t1 ++ t2 ++ t3,
            Except.ok (match stop with | ReadStop.success df => some df | _ => none))
          from by simp only [attempt_try, hC, hS, hR]; cases stop <;> rfl] at he
      rcases List.mem_append.mp he with h | h
      · rcases List.mem_append.mp h with h' | h'
        · exact absurd heq (no_send_of_sentFuncs_nil t1 hCno e h' f m ok)
        · exact send_all_sends env _ s1 e (by rw [hS]; exact h') f m ok heq
      · exact absurd heq (no_send_of_sentFuncs_nil t3 hRno e h f m ok)

theorem attempts_loop_sends (env : Env) (token formatted ivalue : List Char)
    (n_bars : Int) (extended : Bool) (session chart : List Char) :
    ∀ (k : Nat) (s : WSState),
      ∀ e ∈ (attempts_loop env token formatted ivalue n_bars extended session
        chart k s).2.1, ∀ f m ok, e = Event.sendEvt f m ok →
        ∃ a, (f, a) ∈ msgsFor token session chart formatted ivalue n_bars extended ∧
          m = create_message f a := by
  intro k
  induction k with
  | zero => intro s e he; cases he
  | succ k ih =>
    intro s e he f m ok heq
    rcases hA : attempt_try env token formatted ivalue n_bars extended session chart s
      with ⟨s1, t1, rr⟩
    have hmemA : ∀ e' ∈ t1, ∀ f' m' ok', e' = Event.sendEvt f' m' ok' →
        ∃ a, (f', a) ∈ msgsFor token session chart formatted ivalue n_bars extended ∧
          m' = create_message f' a := by
      intro e' he' f' m' ok' heq'
      exact attempt_try_sends env token formatted ivalue n_bars extended session
        chart s e' (by rw [hA]; exact he') f' m' ok' heq'
    have hct : ∀ e' ∈ (if s1.wsSet then [Event.closeEvt] else []),
        e' = Event.closeEvt := by
      intro e' he'
      by_cases hw : s1.wsSet <;> simp [hw] at he' <;> first | exact he' | cases he'
    rcases hL : attempts_loop env token formatted ivalue n_bars extended session
      chart k s1 with ⟨s2, t2, r2⟩
    have hmemL : ∀ e' ∈ t2, ∀ f' m' ok', e' = Event.sendEvt f' m' ok' →
        ∃ a, (f', a) ∈ msgsFor token session chart formatted ivalue n_bars extended ∧
          m' = create_message f' a := by
      intro e' he' f' m' ok' heq'
      exact ih s1 e' (by rw [hL]; exact he') f' m' ok' heq'
    rcases rr with e1 | od
    · rw [show attempts_loop env token formatted ivalue n_bars extended session chart
          (k + 1) s = (s2, t1 ++ (if s1.wsSet then [Event.closeEvt] else []) ++ t2, r2)
          from by simp only [attempts_loop, hA, hL]] at he
      rcases List.mem_append.mp he with h | h
      · rcases List.mem_append.mp h with h' | h'
        · exact hmemA e h' f m ok heq
        · rw [hct e h'] at heq; cases heq
      · exact hmemL e h f m ok heq
    · rcases od with _ | df
      · rw [show attempts_loop env token formatted ivalue n_bars extended session chart
            (k + 1) s = (s2, t1 ++ (if s1.wsSet then [Event.closeEvt] else []) ++ t2, r2)
            from by simp only [attempts_loop, hA, hL]] at he
        rcases List.mem_append.mp he with h | h
        · rcases List.mem_append.mp h with h' | h'
          · exact hmemA e h' f m ok heq
          · rw [hct e h'] at heq; cases heq
        · exact hmemL e h f m ok heq
      · rw [show attempts_loop env token formatted ivalue n_bars extended session chart
            (k + 1) s = (s1, t1 ++ (if s1.wsSet then [Event.closeEvt] else []),
              Except.ok (some df)) from by simp only [attempts_loop, hA]] at he
        rcases List.mem_append.mp he with h | h
        · exact hmemA e h f m ok heq
        · rw [hct e h] at heq; cases heq

theorem create_connection_loop_rand (env : Env) :
    ∀ (k : Nat) (s : WSState), (create_connection_loop env k s).1.rand = s.rand := by
  intro k
  induction k with
  | zero => intro s; rfl
  | succ k ih =>
    intro s
    cases hc : env.connOk s.opens with
    | true => simp [create_connection_loop, hc]
    | false =>
      rcases hl : create_connection_loop env k
        ⟨s.opens + 1, s.sends, s.recvs, s.rand, s.wsSet || false⟩ with ⟨s', tr, r⟩
      have hx := ih ⟨s.opens + 1, s.sends, s.recvs, s.rand, s.wsSet || false⟩
      rw [hl] at hx
      simp only [create_connection_loop, hc, Bool.false_eq_true, if_false, hl]
      exact hx

theorem send_all_rand (env : Env) :
    ∀ (msgs : List (List Char × JArr)) (s : WSState),
      (send_all env msgs s).1.rand = s.rand := by
  intro msgs
  induction msgs with
  | nil => intro s; rfl
  | cons ga rest ih =>
    intro s
    rcases ga with ⟨g, a⟩
    cases hok : env.sendOk s.sends with
    | false => simp [send_all, send_message, hok]
    | true =>
      rcases hrest : send_all env rest ⟨s.opens, s.sends + 1, s.recvs, s.rand, s.wsSet⟩
        with ⟨s'', tr, r⟩
      have hstep : send_all env ((g, a) :: rest) s =
          (s'', Event.sendEvt g (create_message g a) true :: tr, r) := by
        simp [send_all, send_message, hok, hrest]
      rw [hstep]
      have hx := ih ⟨s.opens, s.sends + 1, s.recvs, s.rand, s.wsSet⟩
      rw [hrest] at hx
      exact hx

theorem read_loop_rand (env : Env) (formatted : List Char) :
    ∀ (fuel : Nat) (raw : List Char) (s : WSState),
      (read_loop env formatted fuel raw s).1.rand = s.rand := by
  intro fuel
  induction fuel with
  | zero => intro raw s; rfl
  | succ fuel ih =>
    intro raw s
    rcases hr : env.recv s.recvs with _ | result
    · simp [read_loop, hr]
    · by_cases hcm : completedMarker <:+: result
      · simp only [read_loop, hr]
        rw [if_pos hcm]
        rcases hdf : create_df env.pyFloat (raw ++ result ++ [Char.ofNat 10])
          formatted with e | df
        · rfl
        · by_cases hE : df.rows.isEmpty <;> simp [hE]
      · by_cases herr : errorMarker <:+: result
        · simp only [read_loop, hr]
          rw [if_neg hcm, if_pos herr]
        · have hx := ih (raw ++ result ++ [Char.ofNat 10])
            ⟨s.opens, s.sends, s.recvs + 1, s.rand, s.wsSet⟩
          rcases hl : read_loop env formatted fuel (raw ++ result ++ [Char.ofNat 10])
            ⟨s.opens, s.sends, s.recvs + 1, s.rand, s.wsSet⟩ with ⟨s'', tr, r⟩
          rw [hl] at hx
          simp only [read_loop, hr]
          rw [if_neg hcm, if_neg herr]
          simp only [hl]
          exact hx

theorem attempt_try_rand (env : Env) (token formatted ivalue : List Char)
    (n_bars : Int) (extended : Bool) (session chart : List Char) (s : WSState) :
    (attempt_try env token formatted ivalue n_bars extended session chart s).1.rand
      = s.rand := by
  rcases hC : create_connection env s with ⟨s1, t1, r1⟩
  have hCr : s1.rand = s.rand := by
    have hx := create_connection_loop_rand env max_retries s
    rw [show create_connection_loop env max_retries s = (s1, t1, r1) from hC] at hx
    exact hx
  rcases r1 with e1 | u1
  · simp only [attempt_try, hC]
    exact hCr
  · rcases hS : send_all env (msgsFor token session chart formatted ivalue n_bars
      extended) s1 with ⟨s2, t2, r2⟩
    have hSr : s2.rand = s1.rand := by
      have hx := send_all_rand env (msgsFor token session chart formatted ivalue
        n_bars extended) s1
      rw [hS] at hx
      exact hx
    rcases r2 with e2 | u2
    · simp only [attempt_try, hC, hS]
      rw [hSr, hCr]
    · rcases hR : read_loop env formatted max_messages [] s2 with ⟨s3, t3, stop⟩
      have hRr : s3.rand = s2.rand := by
        have hx := read_loop_rand env formatted max_messages [] s2
        rw [hR] at hx
        exact hx
      simp only [attempt_try, hC, hS, hR]
      rw [hRr, hSr, hCr]

theorem attempts_loop_rand (env : Env) (token formatted ivalue : List Char)
    (n_bars : Int) (extended : Bool) (session chart : List Char) :
    ∀ (k : Nat) (s : WSState),
      (attempts_loop env token formatted ivalue n_bars extended session chart
        k s).1.rand = s.rand := by
  intro k
  induction k with
  | zero => intro s; rfl
  | succ k ih =>
    intro s
    rcases hA : attempt_try env token formatted ivalue n_bars extended session chart s
      with ⟨s1, t1, rr⟩
    have hAr : s1.rand = s.rand := by
      have hx := attempt_try_rand env token formatted ivalue n_bars extended
        session chart s
      rw [hA] at hx
      exact hx
    rcases hL : attempts_loop env token formatted ivalue n_bars extended session
      chart k s1 with ⟨s2, t2, r2⟩
    have hLr : s2.rand = s1.rand := by
      have hx := ih s1
      rw [hL] at hx
      exact hx
    rcases rr with e1 | od
    · simp only [attempts_loop, hA, hL]
      rw [hLr, hAr]
    · rcases od with _ | df
      · simp only [attempts_loop, hA, hL]
        rw [hLr, hAr]
      · simp only [attempts_loop, hA]
        exact hAr

/-- C4 (amended): the quote-session id and chart-session id are generated
once per `get_hist` call, before the retry loop (main.py:236-237), from two
consecutive positions of the random stream — so within one call every retry
attempt reuses the same two ids (every `quote_create_session` /
`chart_create_session` message in the whole trace carries the id drawn at
position `s0.rand` / `s0.rand + 1`), while the random counter advances by
exactly two per call, making the ids fresh across symbols whenever the
random stream does not repeat. -/
theorem c4_amended_sessions_per_call (env : Env) (token symbol exchange : List Char)
    (interval : Interval) (n_bars : Int) (fut_contract : Option Int)
    (extended_session : Bool) (s0 : WSState) :
    (get_hist env token symbol exchange interval n_bars fut_contract
      extended_session s0).1.rand = s0.rand + 2 ∧
    (∀ e ∈ (get_hist env token symbol exchange interval n_bars fut_contract
        extended_session s0).2.1, ∀ m ok,
      e = Event.sendEvt ("quote_create_session").data m ok →
      m = create_message ("quote_create_session").data
        (JArr.ofList [JVal.jstr (("qs_").data ++ env.randWord s0.rand)])) ∧
    (∀ e ∈ (get_hist env token symbol exchange interval n_bars fut_contract
        extended_session s0).2.1, ∀ m ok,
      e = Event.sendEvt ("chart_create_session").data m ok →
      m = create_message ("chart_create_session").data
        (JArr.ofList [JVal.jstr (("cs_").data ++ env.randWord (s0.rand + 1)),
          JVal.jstr []])) := by
  rcases hL : attempts_loop env token (format_symbol symbol none fut_contract)
    interval.value n_bars extended_session
    (("qs_").data ++ env.randWord s0.rand)
    (("cs_").data ++ env.randWord (s0.rand + 1))
    max_retries ⟨s0.opens, s0.sends, s0.recvs, s0.rand + 1 + 1, s0.wsSet⟩
    with ⟨s', tr, r⟩
  have hrand : s'.rand = s0.rand + 1 + 1 := by
    have hx := attempts_loop_rand env token (format_symbol symbol none fut_contract)
      interval.value n_bars extended_session
      (("qs_").data ++ env.randWord s0.rand)
      (("cs_").data ++ env.randWord (s0.rand + 1))
      max_retries ⟨s0.opens, s0.sends, s0.recvs, s0.rand + 1 + 1, s0.wsSet⟩
    rw [hL] at hx
    exact hx
  have hproj : (get_hist env token symbol exchange interval n_bars fut_contract
      extended_session s0).1 = s' ∧
      (get_hist env token symbol exchange interval n_bars fut_contract
        extended_session s0).2.1 = tr := by
    rcases r with e | od
    · constructor <;>
        simp only [get_hist, generate_session, generate_chart_session, hL]
    · rcases od with _ | df <;> constructor <;>
        simp only [get_hist, generate_session, generate_chart_session, hL]
  have hsends : ∀ e ∈ tr, ∀ f m ok, e = Event.sendEvt f m ok →
      ∃ a, (f, a) ∈ msgsFor token (("qs_").data ++ env.randWord s0.rand)
        (("cs_").data ++ env.randWord (s0.rand + 1))
        (format_symbol symbol none fut_contract) interval.value n_bars
        extended_session ∧ m = create_message f a := by
    intro e he f m ok heq
    exact attempts_loop_sends env token (format_symbol symbol none fut_contract)
      interval.value n_bars extended_session
      (("qs_").data ++ env.randWord s0.rand)
      (("cs_").data ++ env.randWord (s0.rand + 1))
      max_retries ⟨s0.opens, s0.sends, s0.recvs, s0.rand + 1 + 1, s0.wsSet⟩
      e (by rw [hL]; exact he) f m ok heq
  refine ⟨?_, ?_, ?_⟩
  · rw [hproj.1, hrand]
  · intro e he m ok heq
    rw [hproj.2] at he
    obtain ⟨a, hmem, hm⟩ := hsends e he (("quote_create_session").data) m ok heq
    simp only [msgsFor, List.mem_cons, List.not_mem_nil, or_false,
      Prod.mk.injEq] at hmem
    rcases hmem with ⟨h1, h2⟩ | ⟨h1, h2⟩ | ⟨h1, h2⟩ | ⟨h1, h2⟩ | ⟨h1, h2⟩ |
      ⟨h1, h2⟩ | ⟨h1, h2⟩ | ⟨h1, h2⟩ | ⟨h1, h2⟩
    · exact absurd h1 (by decide)
    · exact absurd h1 (by decide)
    · rw [hm, h2]
    · exact absurd h1 (by decide)
    · exact absurd h1 (by decide)
    · exact absurd h1 (by decide)
    · exact absurd h1 (by decide)
    · exact absurd h1 (by decide)
    · exact absurd h1 (by decide)
  · intro e he m ok heq
    rw [hproj.2] at he
    obtain ⟨a, hmem, hm⟩ := hsends e he (("chart_create_session").data) m ok heq
    simp only [msgsFor, List.mem_cons, List.not_mem_nil, or_false,
      Prod.mk.injEq] at hmem
    rcases hmem with ⟨h1, h2⟩ | ⟨h1, h2⟩ | ⟨h1, h2⟩ | ⟨h1, h2⟩ | ⟨h1, h2⟩ |
      ⟨h1, h2⟩ | ⟨h1, h2⟩ | ⟨h1, h2⟩ | ⟨h1, h2⟩
    · exact absurd h1 (by decide)
    · rw [hm, h2]
    · exact absurd h1 (by decide)
    · exact absurd h1 (by decide)
    · exact absurd h1 (by decide)
    · exact absurd h1 (by decide)
    · exact absurd h1 (by decide)
    · exact absurd h1 (by decide)
    · exact absurd h1 (by decide)

theorem c4_witness :
    (get_hist envC ("t").data ("AAPL").data ("NSE").data Interval.in_daily 10
      none false WSState.init).1.rand = WSState.init.rand + 2 ∧
    (∀ e ∈ (get_hist envC ("t").data ("AAPL").data ("NSE").data Interval.in_daily
        10 none false WSState.init).2.1, ∀ m ok,
      e = Event.sendEvt ("quote_create_session").data m ok →
      m = create_message ("quote_create_session").data
        (JArr.ofList [JVal.jstr (("qs_").data ++ envC.randWord WSState.init.rand)])) := by
  obtain ⟨h1, h2, h3⟩ := c4_amended_sessions_per_call envC ("t").data ("AAPL").data
    ("NSE").data Interval.in_daily 10 none false WSState.init
  exact ⟨h1, h2⟩

/-! Read-loop bound and stop condition (claim C9). -/

/-- The accumulated buffer layout of the read loop: each received message
followed by the appended newline (main.py:279). -/
def joinNL (msgs : List (List Char)) : List Char :=
  (msgs.map (fun m => m ++ [Char.ofNat 10])).flatten

/-- The buffer contents after `k` received messages, starting from receive
counter `base`. -/
def bufferOf (env : Env) (base k : Nat) : List Char :=
  joinNL ((List.range k).map (fun i => (env.recv (base + i)).getD []))

/-- A text contains one of the two terminal markers (main.py:285,293). -/
def hasMarker (b : List Char) : Prop :=
  completedMarker <:+: b ∨ errorMarker <:+: b

theorem infix_split (pat a b : List Char) (hnl : Char.ofNat 10 ∉ pat)
    (hne : pat ≠ []) (h : pat <:+: a ++ Char.ofNat 10 :: b) :
    pat <:+: a ∨ pat <:+: b := by
  obtain ⟨s, t, hst⟩ := h
  rcases List.append_eq_append_iff.mp (by simpa [List.append_assoc] using hst)
    with ⟨a', ha, hb⟩ | ⟨c', hc1, hc2⟩
  · rcases List.append_eq_append_iff.mp hb with ⟨w, hw1, hw2⟩ | ⟨c', hp1, hp2⟩
    · left
      exact ⟨s, w, by rw [ha, hw1, List.append_assoc]⟩
    · cases c' with
      | nil =>
        left
        rw [List.append_nil] at hp1
        exact ⟨s, [], by rw [ha, ← hp1, List.append_nil]⟩
      | cons c0 cs' =>
        exfalso
        have hc0 : c0 = Char.ofNat 10 := by
          have := hp2
          rw [List.cons_append] at this
          exact (List.cons.injEq _ _ _ _ ▸ this).1.symm
        apply hnl
        rw [hp1, hc0]
        exact List.mem_append.mpr (Or.inr (List.mem_cons_self _ _))
  · cases c' with
    | nil =>
      exfalso
      rw [List.nil_append] at hc2
      cases pat with
      | nil => exact hne rfl
      | cons p ps =>
        apply hnl
        rw [List.cons_append] at hc2
        have hp : p = Char.ofNat 10 := (List.cons.injEq _ _ _ _ ▸ hc2.symm).1
        rw [hp]
        exact List.mem_cons_self _ _
    | cons c0 cs' =>
      right
      rw [List.cons_append] at hc2
      have hb : b = cs' ++ (pat ++ t) := (List.cons.injEq _ _ _ _ ▸ hc2).2
      exact ⟨cs', t, by rw [hb, List.append_assoc]⟩

theorem infix_joinNL (pat : List Char) (hnl : Char.ofNat 10 ∉ pat) (hne : pat ≠ []) :
    ∀ msgs : List (List Char), (pat <:+: joinNL msgs ↔ ∃ m ∈ msgs, pat <:+: m) := by
  intro msgs
  induction msgs with
  | nil =>
    constructor
    · intro h
      have := List.eq_nil_of_infix_nil h
      exact absurd this hne
    · rintro ⟨m, hm, _⟩
      cases hm
  | cons m ms ih =>
    have hshape : joinNL (m :: ms) = m ++ Char.ofNat 10 :: joinNL ms := by
      simp [joinNL]
    rw [hshape]
    constructor
    · intro h
      rcases infix_split pat m (joinNL ms) hnl hne h with h' | h'
      · exact ⟨m, List.mem_cons_self _ _, h'⟩
      · obtain ⟨m', hm', hp⟩ := ih.mp h'
        exact ⟨m', List.mem_cons_of_mem _ hm', hp⟩
    · rintro ⟨m', hm', hp⟩
      rcases List.mem_cons.mp hm' with h' | h'
      · subst h'
        exact hp.trans ⟨[], Char.ofNat 10 :: joinNL ms, by simp⟩
      · exact (ih.mpr ⟨m', h', hp⟩).trans
          ⟨m ++ [Char.ofNat 10], [], by simp⟩

theorem read_loop_msgs (env : Env) (formatted : List Char)
    (h : ∀ n, (env.recv n).isSome) :
    ∀ (fuel : Nat) (raw : List Char) (s : WSState), ∃ n,
      (read_loop env formatted fuel raw s).1.recvs = s.recvs + n ∧
      n ≤ fuel ∧
      (∀ i, i + 1 < n → ¬ hasMarker ((env.recv (s.recvs + i)).getD [])) ∧
      ((read_loop env formatted fuel raw s).2.2 ≠ ReadStop.capReached →
        0 < n ∧ hasMarker ((env.recv (s.recvs + n - 1)).getD [])) ∧
      ((read_loop env formatted fuel raw s).2.2 = ReadStop.capReached → n = fuel) := by
  intro fuel
  induction fuel with
  | zero =>
    intro raw s
    exact ⟨0, rfl, Nat.le_refl 0, fun i hi => absurd hi (by omega),
      fun hstop => absurd rfl hstop, fun _ => rfl⟩
  | succ fuel ih =>
    intro raw s
    rcases henv : env.recv s.recvs with _ | result
    · have hx := h s.recvs
      rw [henv] at hx
      cases hx
    · by_cases hcm : completedMarker <:+: result
      · have hmm : hasMarker ((env.recv (s.recvs + 1 - 1)).getD []) := by
          rw [show s.recvs + 1 - 1 = s.recvs from rfl, henv]
          exact Or.inl hcm
        rcases hdf : create_df env.pyFloat (raw ++ result ++ [Char.ofNat 10])
          formatted with e | df
        · refine ⟨1, ?_, by omega, fun i hi => absurd hi (by omega),
            fun _ => ⟨by omega, hmm⟩, ?_⟩
          · simp only [read_loop, henv]
            rw [if_pos hcm]
            simp only [hdf]
          · intro hstop
            exfalso
            revert hstop
            simp only [read_loop, henv]
            rw [if_pos hcm]
            simp only [hdf]
            intro hstop
            cases hstop
        · by_cases hE : df.rows.isEmpty
          · refine ⟨1, ?_, by omega, fun i hi => absurd hi (by omega),
              fun _ => ⟨by omega, hmm⟩, ?_⟩
            · simp only [read_loop, henv]
              rw [if_pos hcm]
              simp only [hdf, hE, if_pos]
            · intro hstop
              exfalso
              revert hstop
              simp only [read_loop, henv]
              rw [if_pos hcm]
              simp only [hdf, hE, if_pos]
              intro hstop
              cases hstop
          · refine ⟨1, ?_, by omega, fun i hi => absurd hi (by omega),
              fun _ => ⟨by omega, hmm⟩, ?_⟩
            · simp only [read_loop, henv]
              rw [if_pos hcm]
              simp only [hdf]
              rw [if_neg (by simp [hE])]
            · intro hstop
              exfalso
              revert hstop
              simp only [read_loop, henv]
              rw [if_pos hcm]
              simp only [hdf]
              rw [if_neg (by simp [hE])]
              intro hstop
              cases hstop
      · by_cases herr : errorMarker <:+: result
        · have hmm : hasMarker ((env.recv (s.recvs + 1 - 1)).getD []) := by
            rw [show s.recvs + 1 - 1 = s.recvs from rfl, henv]
            exact Or.inr herr
          refine ⟨1, ?_, by omega, fun i hi => absurd hi (by omega),
            fun _ => ⟨by omega, hmm⟩, ?_⟩
          · simp only [read_loop, henv]
            rw [if_neg hcm, if_pos herr]
          · intro hstop
            exfalso
            revert hstop
            simp only [read_loop, henv]
            rw [if_neg hcm, if_pos herr]
            intro hstop
            cases hstop
        · obtain ⟨n', h1, h2, h3, h4, h5⟩ := ih (raw ++ result ++ [Char.ofNat 10])
            ⟨s.opens, s.sends, s.recvs + 1, s.rand, s.wsSet⟩
          rcases hl : read_loop env formatted fuel (raw ++ result ++ [Char.ofNat 10])
            ⟨s.opens, s.sends, s.recvs + 1, s.rand, s.wsSet⟩ with ⟨s'', tr, r⟩
          rw [hl] at h1 h4 h5
          have hred : read_loop env formatted (fuel + 1) raw s =
              (s'', Event.recvEvt true :: tr, r) := by
            simp only [read_loop, henv]
            rw [if_neg hcm, if_neg herr]
            simp only [hl]
          refine ⟨n' + 1, ?_, by omega, ?_, ?_, ?_⟩
          · rw [hred]
            have h1' : s''.recvs = s.recvs + 1 + n' := h1
            show s''.recvs = s.recvs + (n' + 1)
            omega
          · intro i hi
            cases i with
            | zero =>
              rw [show s.recvs + 0 = s.recvs from rfl, henv]
              intro hmk
              rcases hmk with hmk | hmk
              · exact hcm hmk
              · exact herr hmk
            | succ j =>
              have hx := h3 j (by omega)
              simp only at hx
              rw [show s.recvs + 1 + j = s.recvs + (j + 1) from by omega] at hx
              exact hx
          · intro hstop
            rw [hred] at hstop
            obtain ⟨hpos, hmk⟩ := h4 hstop
            refine ⟨by omega, ?_⟩
            simp only at hmk
            rw [show s.recvs + 1 + n' - 1 = s.recvs + (n' + 1) - 1 from by omega] at hmk
            exact hmk
          · intro hstop
            rw [hred] at hstop
            rw [h5 hstop]

set_option maxRecDepth 4000 in
/-- C9: with a transport whose receives deliver messages, the streaming read
loop of `get_hist` performs at most `max_messages = 100` receive
operations; it never reads past a buffer that contains the
`series_completed` or `series_error` substring (the markers contain no
newline and the buffer joins messages with newlines, so the per-message
check at main.py:285,293 is equivalent to a buffer check), and whenever it
stops before the bound, the final buffer does contain one of the markers. -/
theorem c9_read_loop_bound (env : Env) (formatted : List Char) (s : WSState)
    (h : ∀ n, (env.recv n).isSome) :
    ∃ n,
      (read_loop env formatted max_messages [] s).1.recvs = s.recvs + n ∧
      n ≤ max_messages ∧
      (∀ k, k < n → ¬ hasMarker (bufferOf env s.recvs k)) ∧
      (n < max_messages → hasMarker (bufferOf env s.recvs n)) := by
  obtain ⟨n, h1, h2, h3, h4, h5⟩ := read_loop_msgs env formatted h max_messages [] s
  have hccm : completedMarker ≠ [] ∧ Char.ofNat 10 ∉ completedMarker := by decide
  have herm : errorMarker ≠ [] ∧ Char.ofNat 10 ∉ errorMarker := by decide
  refine ⟨n, h1, h2, ?_, ?_⟩
  · intro k hk hmk
    have hmem : ∀ m ∈ (List.range k).map (fun i => (env.recv (s.recvs + i)).getD []),
        ¬ hasMarker m := by
      intro m hm
      obtain ⟨i, hi, hmi⟩ := List.mem_map.mp hm
      rw [← hmi]
      exact h3 i (by have := List.mem_range.mp hi; omega)
    rcases hmk with hmk | hmk
    · obtain ⟨m, hm, hp⟩ := (infix_joinNL completedMarker hccm.2 hccm.1 _).mp hmk
      exact hmem m hm (Or.inl hp)
    · obtain ⟨m, hm, hp⟩ := (infix_joinNL errorMarker herm.2 herm.1 _).mp hmk
      exact hmem m hm (Or.inr hp)
  · intro hn
    have hstop : (read_loop env formatted max_messages [] s).2.2 ≠
        ReadStop.capReached := by
      intro hcap
      have := h5 hcap
      omega
    obtain ⟨hpos, hmk⟩ := h4 hstop
    have hmem : (env.recv (s.recvs + (n - 1))).getD [] ∈
        (List.range n).map (fun i => (env.recv (s.recvs + i)).getD []) :=
      List.mem_map.mpr ⟨n - 1, List.mem_range.mpr (by omega), rfl⟩
    rw [show s.recvs + n - 1 = s.recvs + (n - 1) from by omega] at hmk
    rcases hmk with hmk | hmk
    · exact Or.inl ((infix_joinNL completedMarker hccm.2 hccm.1 _).mpr
        ⟨_, hmem, hmk⟩)
    · exact Or.inr ((infix_joinNL errorMarker herm.2 herm.1 _).mpr
        ⟨_, hmem, hmk⟩)

/-- A transport whose receive always delivers the completion marker. -/
def envW : Env :=
  ⟨fun _ => true, fun _ => true, fun _ => some (("series_completed").data),
   fun _ => [], fun _ => none⟩

theorem c9_witness :
    (∀ n, (envW.recv n).isSome) ∧
    ∃ n,
      (read_loop envW ("AAPL").data max_messages [] WSState.init).1.recvs =
        WSState.init.recvs + n ∧
      n ≤ max_messages ∧
      (∀ k, k < n → ¬ hasMarker (bufferOf envW WSState.init.recvs k)) ∧
      (n < max_messages → hasMarker (bufferOf envW WSState.init.recvs n)) :=
  ⟨fun _ => rfl, c9_read_loop_bound envW ("AAPL").data WSState.init (fun _ => rfl)⟩

/-! Batch coordinator output shape (claim C3). -/

/-- The payloads of all `data_fetched` emissions in a signal trace. -/
def dataPayloads (tr : List Sig) : List (List (List Char × DF)) :=
  tr.filterMap (fun g => match g with | .dataF m => some m | _ => none)

/-- A signal that carries no result data: progress or log. -/
def isPlain : Sig → Bool
  | .progressS _ => true
  | .logS => true
  | _ => false

/-- C3 (counterexample): with a fetch collaborator that raises on every call
and the single input symbol `A`, the coordinator's emitted output contains
exactly one data payload — the empty mapping — although `A` never
succeeded: the explicit failed-symbols list the claim requires is not part
of the emitted output (it appears only in the log text built at
data.py:255-256), and no error signal is emitted either. -/
theorem c3_counterexample :
    dataPayloads (run (fun _ _ => Except.error ()) [("A").data] ("NSE").data 3)
      = [[]] ∧
    Sig.errS ∉ run (fun _ _ => Except.error ()) [("A").data] ("NSE").data 3 := by
  decide

theorem sym_attempts_sigs (fetchO : Nat → List Char → Except Unit DF)
    (exchange sym : List Char) :
    ∀ (k cnt : Nat), ∀ g ∈ (sym_attempts fetchO exchange sym cnt k).2.2,
      isPlain g = true := by
  intro k
  induction k with
  | zero => intro cnt g hg; cases hg
  | succ k ih =>
    intro cnt g hg
    rcases hO : fetchO cnt sym with e | df
    · rcases hrec : sym_attempts fetchO exchange sym (cnt + 1) k with ⟨c', r, sg⟩
      rw [show sym_attempts fetchO exchange sym cnt (k + 1) =
          (c', r, Sig.logS :: Sig.logS :: sg) from by
        simp only [sym_attempts, hO, hrec]] at hg
      rcases List.mem_cons.mp hg with hgg | hg2
      · rw [hgg]; rfl
      · rcases List.mem_cons.mp hg2 with hgg | hg3
        · rw [hgg]; rfl
        · have hx := ih (cnt + 1) g
          rw [hrec] at hx
          exact hx hg3
    · by_cases hE : df.rows.isEmpty
      · rcases hrec : sym_attempts fetchO exchange sym (cnt + 1) k with ⟨c', r, sg⟩
        rw [show sym_attempts fetchO exchange sym cnt (k + 1) =
            (c', r, Sig.logS :: Sig.logS :: sg) from by
          simp only [sym_attempts, hO, hrec, hE, if_pos]] at hg
        rcases List.mem_cons.mp hg with hgg | hg2
        · rw [hgg]; rfl
        · rcases List.mem_cons.mp hg2 with hgg | hg3
          · rw [hgg]; rfl
          · have hx := ih (cnt + 1) g
            rw [hrec] at hx
            exact hx hg3
      · rw [show sym_attempts fetchO exchange sym cnt (k + 1) =
            (cnt + 1, some (clean_df exchange df), [Sig.logS, Sig.logS]) from by
          simp only [sym_attempts, hO]
          rw [if_neg hE]] at hg
        rcases List.mem_cons.mp hg with hgg | hg2
        · rw [hgg]; rfl
        · rcases List.mem_cons.mp hg2 with hgg | hg3
          · rw [hgg]; rfl
          · cases hg3

/-- The attempt loop produces a result only from a successful fetch for its
own symbol: any `some` outcome is the cleanup of a non-empty DataFrame that
the oracle returned for `sym` at some call position. -/
theorem sym_attempts_success (fetchO : Nat → List Char → Except Unit DF)
    (exchange sym : List Char) :
    ∀ (k cnt : Nat) (df' : DF),
      (sym_attempts fetchO exchange sym cnt k).2.1 = some df' →
      ∃ n df, fetchO n sym = Except.ok df ∧ df.rows ≠ [] ∧
        df' = clean_df exchange df := by
  intro k
  induction k with
  | zero =>
    intro cnt df' h
    simp [sym_attempts] at h
  | succ k ih =>
    intro cnt df' h
    rcases hO : fetchO cnt sym with e | df
    · rcases hrec : sym_attempts fetchO exchange sym (cnt + 1) k with ⟨c', r, sg⟩
      rw [show sym_attempts fetchO exchange sym cnt (k + 1) =
          (c', r, Sig.logS :: Sig.logS :: sg) from by
        simp only [sym_attempts, hO, hrec]] at h
      exact ih (cnt + 1) df' (by rw [hrec]; exact h)
    · by_cases hE : df.rows.isEmpty
      · rcases hrec : sym_attempts fetchO exchange sym (cnt + 1) k with ⟨c', r, sg⟩
        rw [show sym_attempts fetchO exchange sym cnt (k + 1) =
            (c', r, Sig.logS :: Sig.logS :: sg) from by
          simp only [sym_attempts, hO, hrec, hE, if_pos]] at h
        exact ih (cnt + 1) df' (by rw [hrec]; exact h)
      · rw [show sym_attempts fetchO exchange sym cnt (k + 1) =
            (cnt + 1, some (clean_df exchange df), [Sig.logS, Sig.logS]) from by
          simp only [sym_attempts, hO]
          rw [if_neg hE]] at h
        have h' : some (clean_df exchange df) = some df' := h
        have hne : df.rows ≠ [] := by
          intro hnil
          apply hE
          rw [hnil]
          rfl
        exact ⟨cnt, df, hO, hne, (Option.some.injEq _ _ ▸ h').symm⟩

theorem pass1_spec (fetchO : Nat → List Char → Except Unit DF)
    (exchange : List Char) (total mr : Nat) :
    ∀ (syms : List (List Char)) (idx cnt : Nat) (res : List (List Char × DF))
      (failed : List (List Char)),
      (∀ k v, lookupD (pass1 fetchO exchange total mr syms idx cnt res failed).1
          k = some v →
        (k ∈ syms ∧ ∃ n df, fetchO n k = Except.ok df ∧ df.rows ≠ [] ∧
          v = clean_df exchange df) ∨ lookupD res k = some v) ∧
      (∀ x ∈ (pass1 fetchO exchange total mr syms idx cnt res failed).2.1,
        x ∈ failed ∨ x ∈ syms) ∧
      (∀ g ∈ (pass1 fetchO exchange total mr syms idx cnt res failed).2.2.2,
        isPlain g = true) := by
  intro syms
  induction syms with
  | nil =>
    intro idx cnt res failed
    exact ⟨fun k v hk => Or.inr hk, fun x hx => Or.inl hx, fun g hg => by cases hg⟩
  | cons sym rest ih =>
    intro idx cnt res failed
    rcases hS : sym_attempts fetchO exchange sym cnt mr with ⟨cnt', r, sg⟩
    have hsg : ∀ g ∈ sg, isPlain g = true := by
      intro g hg
      have hx := sym_attempts_sigs fetchO exchange sym mr cnt g
      rw [hS] at hx
      exact hx hg
    rcases r with _ | df
    · obtain ⟨ih1, ih2, ih3⟩ := ih (idx + 1) cnt' res (failed ++ [sym])
      rcases hP : pass1 fetchO exchange total mr rest (idx + 1) cnt' res
        (failed ++ [sym]) with ⟨res', failed', cnt'', sg2⟩
      rw [hP] at ih1 ih2 ih3
      have hred : pass1 fetchO exchange total mr (sym :: rest) idx cnt res failed =
          (res', failed', cnt'',
            sg ++ [Sig.logS, Sig.progressS ((idx + 1) * 100 / total)] ++ sg2) := by
        simp only [pass1, hS, hP]
      rw [hred]
      refine ⟨?_, ?_, ?_⟩
      · intro k v hk
        rcases ih1 k v hk with ⟨hx, hev⟩ | hx
        · exact Or.inl ⟨List.mem_cons_of_mem _ hx, hev⟩
        · exact Or.inr hx
      · intro x hx
        rcases ih2 x hx with hx' | hx'
        · rcases List.mem_append.mp hx' with hy | hy
          · exact Or.inl hy
          · exact Or.inr (by rw [List.mem_singleton.mp hy]; exact
              List.mem_cons_self _ _)
        · exact Or.inr (List.mem_cons_of_mem _ hx')
      · intro g hg
        rcases List.mem_append.mp hg with hx | hx
        · rcases List.mem_append.mp hx with hy | hy
          · exact hsg g hy
          · rcases List.mem_cons.mp hy with hz | hz
            · rw [hz]; rfl
            · rw [List.mem_singleton.mp hz]; rfl
        · exact ih3 g hx
    · have hsucc : ∃ n df', fetchO n sym = Except.ok df' ∧ df'.rows ≠ [] ∧
          df = clean_df exchange df' := by
        have hx := sym_attempts_success fetchO exchange sym mr cnt df
        rw [hS] at hx
        exact hx rfl
      obtain ⟨ih1, ih2, ih3⟩ := ih (idx + 1) cnt' (dictInsert res sym df) failed
      rcases hP : pass1 fetchO exchange total mr rest (idx + 1) cnt'
        (dictInsert res sym df) failed with ⟨res', failed', cnt'', sg2⟩
      rw [hP] at ih1 ih2 ih3
      have hred : pass1 fetchO exchange total mr (sym :: rest) idx cnt res failed =
          (res', failed', cnt'',
            sg ++ [Sig.progressS ((idx + 1) * 100 / total)] ++ sg2) := by
        simp only [pass1, hS, hP]
      rw [hred]
      refine ⟨?_, ?_, ?_⟩
      · intro k v hk
        rcases ih1 k v hk with ⟨hx, hev⟩ | hx
        · exact Or.inl ⟨List.mem_cons_of_mem _ hx, hev⟩
        · rw [lookupD_dictInsert] at hx
          by_cases hks : sym = k
          · rw [if_pos hks] at hx
            have hv : v = df := (Option.some.injEq _ _ ▸ hx).symm
            obtain ⟨n, df', hok, hne, hcl⟩ := hsucc
            refine Or.inl ⟨by rw [← hks]; exact List.mem_cons_self _ _,
              n, df', by rw [← hks]; exact hok, hne, by rw [hv, hcl]⟩
          · rw [if_neg hks] at hx
            exact Or.inr hx
      · intro x hx
        rcases ih2 x hx with hx' | hx'
        · exact Or.inl hx'
        · exact Or.inr (List.mem_cons_of_mem _ hx')
      · intro g hg
        rcases List.mem_append.mp hg with hx | hx
        · rcases List.mem_append.mp hx with hy | hy
          · exact hsg g hy
          · rw [List.mem_singleton.mp hy]; rfl
        · exact ih3 g hx

theorem round_pass_spec (fetchO : Nat → List Char → Except Unit DF)
    (exchange : List Char) (mr : Nat) :
    ∀ (syms : List (List Char)) (cnt : Nat) (res : List (List Char × DF))
      (nf : List (List Char)),
      (∀ k v, lookupD (round_pass fetchO exchange mr syms cnt res nf).1 k
          = some v →
        (k ∈ syms ∧ ∃ n df, fetchO n k = Except.ok df ∧ df.rows ≠ [] ∧
          v = clean_df exchange df) ∨ lookupD res k = some v) ∧
      (∀ x ∈ (round_pass fetchO exchange mr syms cnt res nf).2.1,
        x ∈ nf ∨ x ∈ syms) ∧
      (∀ g ∈ (round_pass fetchO exchange mr syms cnt res nf).2.2.2,
        isPlain g = true) := by
  intro syms
  induction syms with
  | nil =>
    intro cnt res nf
    exact ⟨fun k v hk => Or.inr hk, fun x hx => Or.inl hx, fun g hg => by cases hg⟩
  | cons sym rest ih =>
    intro cnt res nf
    rcases hS : sym_attempts fetchO exchange sym cnt mr with ⟨cnt', r, sg⟩
    have hsg : ∀ g ∈ sg, isPlain g = true := by
      intro g hg
      have hx := sym_attempts_sigs fetchO exchange sym mr cnt g
      rw [hS] at hx
      exact hx hg
    rcases r with _ | df
    · obtain ⟨ih1, ih2, ih3⟩ := ih cnt' res (nf ++ [sym])
      rcases hP : round_pass fetchO exchange mr rest cnt' res (nf ++ [sym])
        with ⟨res', nf', cnt'', sg2⟩
      rw [hP] at ih1 ih2 ih3
      have hred : round_pass fetchO exchange mr (sym :: rest) cnt res nf =
          (res', nf', cnt'', sg ++ sg2) := by
        simp only [round_pass, hS, hP]
      rw [hred]
      refine ⟨?_, ?_, ?_⟩
      · intro k v hk
        rcases ih1 k v hk with ⟨hx, hev⟩ | hx
        · exact Or.inl ⟨List.mem_cons_of_mem _ hx, hev⟩
        · exact Or.inr hx
      · intro x hx
        rcases ih2 x hx with hx' | hx'
        · rcases List.mem_append.mp hx' with hy | hy
          · exact Or.inl hy
          · exact Or.inr (by rw [List.mem_singleton.mp hy]; exact
              List.mem_cons_self _ _)
        · exact Or.inr (List.mem_cons_of_mem _ hx')
      · intro g hg
        rcases List.mem_append.mp hg with hx | hx
        · exact hsg g hx
        · exact ih3 g hx
    · have hsucc : ∃ n df', fetchO n sym = Except.ok df' ∧ df'.rows ≠ [] ∧
          df = clean_df exchange df' := by
        have hx := sym_attempts_success fetchO exchange sym mr cnt df
        rw [hS] at hx
        exact hx rfl
      obtain ⟨ih1, ih2, ih3⟩ := ih cnt' (dictInsert res sym df) nf
      rcases hP : round_pass fetchO exchange mr rest cnt' (dictInsert res sym df)
        nf with ⟨res', nf', cnt'', sg2⟩
      rw [hP] at ih1 ih2 ih3
      have hred : round_pass fetchO exchange mr (sym :: rest) cnt res nf =
          (res', nf', cnt'', sg ++ sg2) := by
        simp only [round_pass, hS, hP]
      rw [hred]
      refine ⟨?_, ?_, ?_⟩
      · intro k v hk
        rcases ih1 k v hk with ⟨hx, hev⟩ | hx
        · exact Or.inl ⟨List.mem_cons_of_mem _ hx, hev⟩
        · rw [lookupD_dictInsert] at hx
          by_cases hks : sym = k
          · rw [if_pos hks] at hx
            have hv : v = df := (Option.some.injEq _ _ ▸ hx).symm
            obtain ⟨n, df', hok, hne, hcl⟩ := hsucc
            refine Or.inl ⟨by rw [← hks]; exact List.mem_cons_self _ _,
              n, df', by rw [← hks]; exact hok, hne, by rw [hv, hcl]⟩
          · rw [if_neg hks] at hx
            exact Or.inr hx
      · intro x hx
        rcases ih2 x hx with hx' | hx'
        · exact Or.inl hx'
        · exact Or.inr (List.mem_cons_of_mem _ hx')
      · intro g hg
        rcases List.mem_append.mp hg with hx | hx
        · exact hsg g hx
        · exact ih3 g hx

theorem rounds_spec (fetchO : Nat → List Char → Except Unit DF)
    (exchange : List Char) (mr : Nat) :
    ∀ (fuel : Nat) (failed : List (List Char)) (res : List (List Char × DF))
      (cnt : Nat),
      (∀ k v, lookupD (rounds fetchO exchange mr fuel failed res cnt).1 k
          = some v →
        (k ∈ failed ∧ ∃ n df, fetchO n k = Except.ok df ∧ df.rows ≠ [] ∧
          v = clean_df exchange df) ∨ lookupD res k = some v) ∧
      (∀ g ∈ (rounds fetchO exchange mr fuel failed res cnt).2.2.2,
        isPlain g = true) := by
  intro fuel
  induction fuel with
  | zero =>
    intro failed res cnt
    exact ⟨fun k v hk => Or.inr hk, fun g hg => by cases hg⟩
  | succ fuel ih =>
    intro failed res cnt
    by_cases hf : failed.isEmpty
    · rw [show rounds fetchO exchange mr (fuel + 1) failed res cnt =
          (res, failed, cnt, []) from by simp only [rounds, hf, if_pos]]
      exact ⟨fun k v hk => Or.inr hk, fun g hg => by cases hg⟩
    · obtain ⟨rp1, rp2, rp3⟩ := round_pass_spec fetchO exchange mr failed cnt res []
      rcases hR : round_pass fetchO exchange mr failed cnt res []
        with ⟨res', nf, cnt', sg⟩
      rw [hR] at rp1 rp2 rp3
      obtain ⟨iq1, iq2⟩ := ih nf res' cnt'
      rcases hQ : rounds fetchO exchange mr fuel nf res' cnt'
        with ⟨res'', f'', cnt'', sg2⟩
      rw [hQ] at iq1 iq2
      rw [show rounds fetchO exchange mr (fuel + 1) failed res cnt =
          (res'', f'', cnt'', Sig.logS :: sg ++ sg2) from by
        simp only [rounds, hf, if_neg, hR, hQ]
        rw [if_neg (by simp [hf])]]
      refine ⟨?_, ?_⟩
      · intro k v hk
        rcases iq1 k v hk with ⟨hx, hev⟩ | hx
        · rcases rp2 k hx with hy | hy
          · cases hy
          · exact Or.inl ⟨hy, hev⟩
        · rcases rp1 k v hx with ⟨hy, hev⟩ | hy
          · exact Or.inl ⟨hy, hev⟩
          · exact Or.inr hy
      · intro g hg
        rcases List.mem_cons.mp hg with hx | hx
        · rw [hx]; rfl
        · rcases List.mem_append.mp hx with hy | hy
          · exact rp3 g hy
          · exact iq2 g hy

/-- C3 (amended): for every symbol list and every fetch-collaborator
behaviour, `DataFetchThread.run` emits exactly one `data_fetched` payload
and never an error signal (all collaborator failures are caught at the
attempt level); every entry of that payload is an input symbol whose own
fetch succeeded — its value is the cleanup of a non-empty DataFrame the
collaborator returned for that very symbol — and consequently a symbol
whose every fetch raises or returns an empty frame is absent from the
payload: the never-succeeded symbols are recoverable only as input minus
keys and appear in log messages, not as an explicit list in the emitted
output. -/
theorem c3_amended_batch_output (fetchO : Nat → List Char → Except Unit DF)
    (symbols : List (List Char)) (exchange : List Char) (mr : Nat) :
    (dataPayloads (run fetchO symbols exchange mr)).length = 1 ∧
    Sig.errS ∉ run fetchO symbols exchange mr ∧
    (∀ m ∈ dataPayloads (run fetchO symbols exchange mr), ∀ k v,
      lookupD m k = some v →
      k ∈ symbols ∧ ∃ n df, fetchO n k = Except.ok df ∧ df.rows ≠ [] ∧
        v = clean_df exchange df) ∧
    (∀ m ∈ dataPayloads (run fetchO symbols exchange mr), ∀ k,
      (∀ n df, fetchO n k = Except.ok df → df.rows = []) →
      lookupD m k = none) := by
  obtain ⟨p1, p2, p3⟩ := pass1_spec fetchO exchange symbols.length mr symbols 0 0 [] []
  rcases hP : pass1 fetchO exchange symbols.length mr symbols 0 0 [] []
    with ⟨res, failed, cnt, sg1⟩
  rw [hP] at p1 p2 p3
  obtain ⟨q1, q2⟩ := rounds_spec fetchO exchange mr mr failed res cnt
  rcases hQ : rounds fetchO exchange mr mr failed res cnt
    with ⟨res', failed', cnt', sg2⟩
  rw [hQ] at q1 q2
  have hrun : run fetchO symbols exchange mr =
      sg1 ++ sg2 ++ [Sig.logS, Sig.dataF res'] := by
    simp only [run, hP, hQ]
  rw [hrun]
  have hplain : ∀ g ∈ sg1 ++ sg2, isPlain g = true := by
    intro g hg
    rcases List.mem_append.mp hg with hx | hx
    · exact p3 g hx
    · exact q2 g hx
  have hDP : dataPayloads (sg1 ++ sg2 ++ [Sig.logS, Sig.dataF res']) = [res'] := by
    rw [dataPayloads, List.filterMap_append]
    rw [show (sg1 ++ sg2).filterMap
        (fun g => match g with | Sig.dataF m => some m | _ => none) = [] from
      List.filterMap_eq_nil_iff.mpr (by
        intro g hg
        have := hplain g hg
        cases g <;> first | rfl | simp [isPlain] at this)]
    rfl
  have hentry : ∀ m ∈ dataPayloads (sg1 ++ sg2 ++ [Sig.logS, Sig.dataF res']),
      ∀ k v, lookupD m k = some v →
      k ∈ symbols ∧ ∃ n df, fetchO n k = Except.ok df ∧ df.rows ≠ [] ∧
        v = clean_df exchange df := by
    intro m hm k v hk
    rw [hDP] at hm
    rw [List.mem_singleton.mp hm] at hk
    rcases q1 k v hk with ⟨hx, hev⟩ | hx
    · rcases p2 k hx with hy | hy
      · cases hy
      · exact ⟨hy, hev⟩
    · rcases p1 k v hx with ⟨hy, hev⟩ | hy
      · exact ⟨hy, hev⟩
      · simp [lookupD] at hy
  refine ⟨by rw [hDP]; rfl, ?_, hentry, ?_⟩
  · intro hmem
    rcases List.mem_append.mp hmem with hx | hx
    · have := hplain _ hx
      simp [isPlain] at this
    · rcases List.mem_cons.mp hx with hy | hy
      · cases hy
      · rcases List.mem_singleton.mp hy
  · intro m hm k hfail
    rcases hlk : lookupD m k with _ | v
    · rfl
    · obtain ⟨_, n, df, hok, hne, _⟩ := hentry m hm k v hlk
      exact absurd (hfail n df hok) hne

theorem c3_witness :
    (dataPayloads (run (fun _ _ => Except.error ()) [("A").data] ("NSE").data
      3)).length = 1 ∧
    Sig.errS ∉ run (fun _ _ => Except.error ()) [("A").data] ("NSE").data 3 ∧
    (∀ m ∈ dataPayloads (run (fun _ _ => Except.error ()) [("A").data]
        ("NSE").data 3), lookupD m (("A").data) = none) := by
  obtain ⟨h1, h2, h3, h4⟩ := c3_amended_batch_output (fun _ _ => Except.error ())
    [("A").data] ("NSE").data 3
  exact ⟨h1, h2, fun m hm => h4 m hm (("A").data) (fun n df h => nomatch h)⟩

end Tv
